import Mathlib

/-!
Verification development for the markdown-to-card engine in
`image_generator.py` (text2card).  Strings are modelled as `List Char`
(`Str`); each Python regular expression used by the parser is embedded as a
dedicated scanning function that follows the leftmost / lazy / greedy
semantics of `re`.  Font metrics and the external emoji classifier are
parameters (`cw`, `ch`, `ie`): the code only ever consults them pointwise.
-/

namespace IG

abbrev Str := List Char

def lit (s : String) : Str := s.data

/-- backquote character (0x60). -/
def bq : Char := Char.ofNat 96

/-- single-quote character (0x27). -/
def sqt : Char := Char.ofNat 39

/-- double-quote character (0x22). -/
def dqt : Char := Char.ofNat 34

/-- whitespace as recognised by Python `str.strip` (ASCII part). -/
def pyIsSpace (c : Char) : Bool :=
  c = ' ' || c = '\t' || c = '\n' || c = '\r' || c = Char.ofNat 11 || c = Char.ofNat 12

def pyLstrip (s : Str) : Str := s.dropWhile (fun c => pyIsSpace c)

def pyRstrip (s : Str) : Str := (s.reverse.dropWhile (fun c => pyIsSpace c)).reverse

def pyStrip (s : Str) : Str := pyLstrip (pyRstrip s)

/-- `sw s p` : does `s` start with `p` (Python `str.startswith`). -/
def sw : Str → Str → Bool
| _, [] => true
| [], _ :: _ => false
| a :: s, b :: p => if a = b then sw s p else false

/-- number of occurrences of a character. -/
def cnt (c : Char) : Str → Nat
| [] => 0
| a :: t => (if a = c then 1 else 0) + cnt c t

/-- split at the first occurrence of character `c`:
`splitOnChar c s = some (p, r)` with `s = p ++ c :: r` and no `c` in `p`. -/
def splitOnChar (c : Char) : Str → Option (Str × Str)
| [] => none
| a :: t =>
  if a = c then some ([], t)
  else (splitOnChar c t).map fun pr => (a :: pr.1, pr.2)

/-- split at the first occurrence of the two-character run `c c`. -/
def splitOnPair (c : Char) : Str → Option (Str × Str)
| [] => none
| [_] => none
| a :: b :: t =>
  if a = c ∧ b = c then some ([], t)
  else (splitOnPair c (b :: t)).map fun pr => (a :: pr.1, pr.2)

theorem splitOnChar_eq {c : Char} : ∀ {s p r : Str},
    splitOnChar c s = some (p, r) → s = p ++ c :: r := by
  intro s
  induction s with
  | nil => intro p r h; simp [splitOnChar] at h
  | cons a t ih =>
    intro p r h
    by_cases hac : a = c
    · rw [splitOnChar, if_pos hac] at h
      obtain ⟨hp, hr⟩ := Prod.mk.injEq .. ▸ Option.some.injEq .. ▸ h
      subst hp; subst hr; simp [hac]
    · rw [splitOnChar, if_neg hac] at h
      cases hsp : splitOnChar c t with
      | none => rw [hsp] at h; simp at h
      | some pr =>
        rw [hsp] at h
        simp only [Option.map_some', Option.some.injEq] at h
        have h1 : a :: pr.1 = p := congrArg Prod.fst h
        have h2 : pr.2 = r := congrArg Prod.snd h
        subst h1; subst h2
        simpa using congrArg (List.cons a) (ih (p := pr.1) (r := pr.2) (by rw [hsp]))

theorem splitOnChar_cnt {c : Char} : ∀ {s p r : Str},
    splitOnChar c s = some (p, r) → cnt c p = 0 := by
  intro s
  induction s with
  | nil => intro p r h; simp [splitOnChar] at h
  | cons a t ih =>
    intro p r h
    by_cases hac : a = c
    · rw [splitOnChar, if_pos hac] at h
      have hp : ([] : Str) = p := congrArg (fun x => Prod.fst (Option.getD x ([], []))) h
      subst hp; simp [cnt]
    · rw [splitOnChar, if_neg hac] at h
      cases hsp : splitOnChar c t with
      | none => rw [hsp] at h; simp at h
      | some pr =>
        rw [hsp] at h
        simp only [Option.map_some', Option.some.injEq] at h
        have h1 : a :: pr.1 = p := congrArg Prod.fst h
        subst h1
        have := ih (p := pr.1) (r := pr.2) (by rw [hsp])
        simp [cnt, hac, this]

theorem splitOnChar_len {c : Char} {s p r : Str}
    (h : splitOnChar c s = some (p, r)) : r.length < s.length := by
  have := splitOnChar_eq h
  subst this
  simp only [List.length_append, List.length_cons]
  omega

theorem splitOnPair_eq {c : Char} : ∀ {s p r : Str},
    splitOnPair c s = some (p, r) → s = p ++ c :: c :: r := by
  intro s
  induction s with
  | nil => intro p r h; simp [splitOnPair] at h
  | cons a t ih =>
    intro p r h
    match t with
    | [] => simp [splitOnPair] at h
    | b :: u =>
      by_cases hab : a = c ∧ b = c
      · rw [splitOnPair, if_pos hab] at h
        simp only [Option.some.injEq, Prod.mk.injEq] at h
        obtain ⟨hp, hr⟩ := h
        subst hp; subst hr
        simp [hab.1, hab.2]
      · rw [splitOnPair, if_neg hab] at h
        cases hsp : splitOnPair c (b :: u) with
        | none => rw [hsp] at h; simp at h
        | some pr =>
          rw [hsp] at h
          simp only [Option.map_some', Option.some.injEq] at h
          have h1 : a :: pr.1 = p := congrArg Prod.fst h
          have h2 : pr.2 = r := congrArg Prod.snd h
          subst h1; subst h2
          simpa using congrArg (List.cons a) (ih (p := pr.1) (r := pr.2) (by rw [hsp]))

theorem splitOnPair_len {c : Char} {s p r : Str}
    (h : splitOnPair c s = some (p, r)) : r.length + 2 ≤ s.length := by
  have := splitOnPair_eq h
  subst this
  simp only [List.length_append, List.length_cons]
  omega

/-- `pairFreeB c s` : `s` contains no two adjacent occurrences of `c`. -/
def pairFreeB (c : Char) : Str → Bool
| [] => true
| [_] => true
| a :: b :: t => if a = c ∧ b = c then false else pairFreeB c (b :: t)

theorem splitOnPair_free {c : Char} : ∀ {s p r : Str},
    splitOnPair c s = some (p, r) → pairFreeB c (p ++ [c]) = true := by
  intro s
  induction s with
  | nil => intro p r h; simp [splitOnPair] at h
  | cons a t ih =>
    intro p r h
    match t with
    | [] => simp [splitOnPair] at h
    | b :: u =>
      by_cases hab : a = c ∧ b = c
      · rw [splitOnPair, if_pos hab] at h
        simp only [Option.some.injEq, Prod.mk.injEq] at h
        obtain ⟨hp, _⟩ := h
        subst hp; simp [pairFreeB]
      · rw [splitOnPair, if_neg hab] at h
        cases hsp : splitOnPair c (b :: u) with
        | none => rw [hsp] at h; simp at h
        | some pr =>
          rw [hsp] at h
          simp only [Option.map_some', Option.some.injEq] at h
          have h1 : a :: pr.1 = p := congrArg Prod.fst h
          subst h1
          have hfree : pairFreeB c (pr.1 ++ [c]) = true :=
            ih (p := pr.1) (r := pr.2) (by rw [hsp])
          have heq : b :: u = pr.1 ++ c :: c :: pr.2 :=
            splitOnPair_eq (p := pr.1) (r := pr.2) (by rw [hsp])
          match hq : pr.1 with
          | [] =>
            rw [hq] at heq
            have hbc : b = c := by simpa using congrArg (fun l => List.headD l ' ') heq
            have hanc : ¬ a = c := fun hac => hab ⟨hac, hbc⟩
            simp [pairFreeB, hanc]
          | x :: q' =>
            rw [hq] at heq
            have hbx : b = x := by simpa using congrArg (fun l => List.headD l ' ') heq
            rw [hq] at hfree
            simp only [List.cons_append, pairFreeB] at hfree ⊢
            rw [if_neg (fun hax : a = c ∧ x = c => hab ⟨hax.1, hbx ▸ hax.2⟩)]
            exact hfree

/-- does the pattern `cc(.*?)cc` match somewhere in `s`
(two disjoint adjacent runs of `c`)?  Models `re.search` for
`bold_pattern` (`c = '*'`) and `strikethrough_pattern` (`c = '~'`). -/
def pairMatches (c : Char) (s : Str) : Bool :=
  match splitOnPair c s with
  | none => false
  | some (_, r) => (splitOnPair c r).isSome

/-- global substitution `cc(.*?)cc` ↦ group 1, continuing after each match;
models `bold_pattern.sub(r'\1', ·)` and `strikethrough_pattern.sub`.
The fuel only bounds the recursion; each match consumes at least four
characters, so `s.length` is always sufficient. -/
def pairSubAllF (c : Char) : Nat → Str → Str
| 0, s => s
| fuel + 1, s =>
  match splitOnPair c s with
  | none => s
  | some (p, r) =>
    match splitOnPair c r with
    | none => s
    | some (g, r2) => p ++ g ++ pairSubAllF c fuel r2

def pairSubAll (c : Char) (s : Str) : Str := pairSubAllF c s.length s

/-- does `` `(.*?)` `` match somewhere in `s` (`code_pattern.search`). -/
def codeMatchesB (s : Str) : Bool :=
  match splitOnChar bq s with
  | none => false
  | some (_, r) => (splitOnChar bq r).isSome

/-- global substitution `` `(.*?)` `` ↦ group 1 (`code_pattern.sub(r'\1', ·)`). -/
def codeSubF : Nat → Str → Str
| 0, s => s
| fuel + 1, s =>
  match splitOnChar bq s with
  | none => s
  | some (p, r) =>
    match splitOnChar bq r with
    | none => s
    | some (g, r2) => p ++ g ++ codeSubF fuel r2

def codeSub (s : Str) : Str := codeSubF s.length s

/-- one alternative of `italic_pattern` at the current position:
for head `'*'`, the lookahead `(?!\*)` plus a lazy closing `'*'`;
for head `'_'`, a lazy closing `'_'`; group must be nonempty. -/
def italicSubF : Nat → Str → Str
| _, [] => []
| 0, s => s
| fuel + 1, a :: t =>
  if a = '*' then
    match t with
    | [] => [a]
    | b :: t2 =>
      if b = '*' then a :: italicSubF fuel (b :: t2)
      else
        match splitOnChar '*' t2 with
        | some (g, r) => (b :: g) ++ italicSubF fuel r
        | none => a :: italicSubF fuel (b :: t2)
  else if a = '_' then
    match t with
    | [] => [a]
    | b :: t2 =>
      match splitOnChar '_' t2 with
      | some (g, r) => (b :: g) ++ italicSubF fuel r
      | none => a :: italicSubF fuel (b :: t2)
  else a :: italicSubF fuel t

def italicSub (s : Str) : Str := italicSubF s.length s

/-- does `italic_pattern` (`\*((?!\*).+?)\*|_(.+?)_`) match somewhere in `s`. -/
def italicMatchesB : Str → Bool
| [] => false
| a :: t =>
  if a = '*' then
    match t with
    | [] => false
    | b :: t2 =>
      if b = '*' then italicMatchesB t
      else
        match splitOnChar '*' t2 with
        | some _ => true
        | none => italicMatchesB t
  else if a = '_' then
    match t with
    | [] => false
    | _ :: t2 =>
      match splitOnChar '_' t2 with
      | some _ => true
      | none => italicMatchesB t
  else italicMatchesB t

/-- after the `']'` of a link-candidate: requires `'('`, then the lazy
group 2 of `link_pattern` (at least one character, then the first `')'`);
returns the rest after the match. -/
def linkHead : Str → Option Str
| [] => none
| [_] => none
| a :: _ :: r3 => if a = '(' then (splitOnChar ')' r3).map Prod.snd else none

/-- match attempt for `link_pattern` (`\\[(.*?)\\]\\((.+?)\\)`) after a consumed
`'['`: backtracks the lazy group 1 over successive `']'` candidates until one
is followed by `'('` and a closing `')'`.  Returns (group 1, rest). -/
def linkTryF : Nat → Str → Option (Str × Str)
| 0, _ => none
| fuel + 1, t =>
  match splitOnChar ']' t with
  | none => none
  | some (g1, r) =>
    match linkHead r with
    | some rest => some (g1, rest)
    | none => (linkTryF fuel r).map fun pr => (g1 ++ ']' :: pr.1, pr.2)

def linkTry (t : Str) : Option (Str × Str) := linkTryF t.length t

theorem pairFree_skip {c : Char} : ∀ {x : Str}, pairFreeB c (x ++ [c]) = true →
    ∀ y : Str, splitOnPair c (x ++ y) =
      (splitOnPair c y).map fun pr => (x ++ pr.1, pr.2) := by
  intro x
  induction x with
  | nil =>
    intro _ y
    cases hsp : splitOnPair c y with
    | none => simp [hsp]
    | some pr => simp [hsp]
  | cons a x ih =>
    intro hfree y
    cases x with
    | nil =>
      have hanc : ¬ a = c := by
        intro hac
        have hfalse : pairFreeB c ((a :: ([] : Str)) ++ [c]) = false := by
          show (if a = c ∧ c = c then false else pairFreeB c [c]) = false
          rw [if_pos ⟨hac, rfl⟩]
        exact absurd (hfree.symm.trans hfalse) (by simp)
      cases y with
      | nil => simp [splitOnPair]
      | cons b t =>
        have hcond : ¬ (a = c ∧ b = c) := fun hh => hanc hh.1
        show splitOnPair c (a :: b :: t) = _
        rw [splitOnPair, if_neg hcond]
        cases hsp : splitOnPair c (b :: t) with
        | none => simp [hsp]
        | some pr => simp [hsp]
    | cons a' x'' =>
      have hcond : ¬ (a = c ∧ a' = c) := by
        intro hh
        have hfalse : pairFreeB c ((a :: a' :: x'') ++ [c]) = false := by
          show (if a = c ∧ a' = c then false else pairFreeB c ((a' :: x'') ++ [c])) = false
          rw [if_pos hh]
        exact absurd (hfree.symm.trans hfalse) (by simp)
      have hfree' : pairFreeB c ((a' :: x'') ++ [c]) = true := by
        have hstep : pairFreeB c ((a :: a' :: x'') ++ [c]) =
            if a = c ∧ a' = c then false else pairFreeB c ((a' :: x'') ++ [c]) := rfl
        rw [hstep, if_neg hcond] at hfree
        exact hfree
      have hih := ih hfree' y
      show splitOnPair c (a :: a' :: (x'' ++ y)) = _
      rw [splitOnPair, if_neg hcond]
      rw [show (a' :: x'') ++ y = a' :: (x'' ++ y) from rfl] at hih
      rw [hih]
      cases hsp : splitOnPair c y with
      | none => simp
      | some pr => simp

theorem pairMatches_skip {c : Char} {x : Str}
    (hfree : pairFreeB c (x ++ [c]) = true) (y : Str) :
    pairMatches c (x ++ y) = pairMatches c y := by
  rw [pairMatches, pairFree_skip hfree y, pairMatches]
  cases hsp : splitOnPair c y with
  | none => simp
  | some pr => simp

/-- after the global `cc(.*?)cc` substitution the pattern no longer matches:
the substituted text contains no two disjoint `cc` runs. -/
theorem pairSubAllF_noMatch (c : Char) : ∀ fuel (s : Str), s.length ≤ fuel →
    pairMatches c (pairSubAllF c fuel s) = false := by
  intro fuel
  induction fuel with
  | zero =>
    intro s hs
    have : s = [] := List.length_eq_zero.mp (Nat.le_zero.mp hs)
    subst this
    simp [pairSubAllF, pairMatches, splitOnPair]
  | succ n ih =>
    intro s hs
    rw [pairSubAllF]
    split
    · rename_i h1
      simp [pairMatches, h1]
    · rename_i p r h1
      split
      · rename_i h2
        simp [pairMatches, h1, h2]
      · rename_i g r2 h2
        have hf1 := splitOnPair_free h1
        have hf2 := splitOnPair_free h2
        have hl1 := splitOnPair_len h1
        have hl2 := splitOnPair_len h2
        rw [List.append_assoc, pairMatches_skip hf1, pairMatches_skip hf2]
        exact ih r2 (by omega)

theorem pairSubAll_noMatch (c : Char) (s : Str) :
    pairMatches c (pairSubAll c s) = false :=
  pairSubAllF_noMatch c s.length s le_rfl

theorem cnt_append (c : Char) : ∀ a b : Str, cnt c (a ++ b) = cnt c a + cnt c b := by
  intro a b
  induction a with
  | nil => simp [cnt]
  | cons x t ih => simp [cnt, ih]; omega

theorem splitOnChar_none_cnt {c : Char} : ∀ {t : Str},
    splitOnChar c t = none → cnt c t = 0 := by
  intro t
  induction t with
  | nil => intro _; simp [cnt]
  | cons a u ih =>
    intro hh
    by_cases hab : a = c
    · rw [splitOnChar, if_pos hab] at hh; simp at hh
    · rw [splitOnChar, if_neg hab] at hh
      cases hsp : splitOnChar c u with
      | none => simp [cnt, hab, ih hsp]
      | some pr => rw [hsp] at hh; simp at hh

/-- the global inline-code substitution leaves at most one backquote. -/
theorem codeSubF_cnt : ∀ fuel (s : Str), s.length ≤ fuel →
    cnt bq (codeSubF fuel s) ≤ 1 := by
  intro fuel
  induction fuel with
  | zero =>
    intro s hs
    have : s = [] := List.length_eq_zero.mp (Nat.le_zero.mp hs)
    subst this
    simp [codeSubF, cnt]
  | succ n ih =>
    intro s hs
    rw [codeSubF]
    split
    · rename_i h1
      simp [splitOnChar_none_cnt h1]
    · rename_i p r h1
      split
      · rename_i h2
        have heq := splitOnChar_eq h1
        have hp := splitOnChar_cnt h1
        have hr := splitOnChar_none_cnt h2
        rw [heq, cnt_append]
        simp [cnt, hp, hr]
      · rename_i g r2 h2
        have hp := splitOnChar_cnt h1
        have hg := splitOnChar_cnt h2
        have hl1 := splitOnChar_len h1
        have hl2 := splitOnChar_len h2
        rw [cnt_append, cnt_append, hp, hg]
        have := ih r2 (by omega)
        omega

theorem codeSub_cnt (s : Str) : cnt bq (codeSub s) ≤ 1 :=
  codeSubF_cnt s.length s le_rfl

/-- a pair substitution with marker `c` preserves the number of occurrences
of any other character `d`. -/
theorem pairSubAllF_cnt {c d : Char} (hcd : ¬ c = d) : ∀ fuel (s : Str),
    s.length ≤ fuel → cnt d (pairSubAllF c fuel s) = cnt d s := by
  intro fuel
  induction fuel with
  | zero =>
    intro s hs
    have : s = [] := List.length_eq_zero.mp (Nat.le_zero.mp hs)
    subst this
    simp [pairSubAllF]
  | succ n ih =>
    intro s hs
    rw [pairSubAllF]
    split
    · rfl
    · rename_i p r h1
      split
      · rfl
      · rename_i g r2 h2
        have he1 := splitOnPair_eq h1
        have he2 := splitOnPair_eq h2
        have hl1 := splitOnPair_len h1
        have hl2 := splitOnPair_len h2
        rw [cnt_append, cnt_append, ih r2 (by omega)]
        rw [he1, he2]
        simp [cnt_append, cnt, hcd]
        omega

theorem pairSubAll_cnt {c d : Char} (hcd : ¬ c = d) (s : Str) :
    cnt d (pairSubAll c s) = cnt d s :=
  pairSubAllF_cnt hcd s.length s le_rfl

theorem codeMatches_two {t : Str} (h : codeMatchesB t = true) : 2 ≤ cnt bq t := by
  rw [codeMatchesB] at h
  cases h1 : splitOnChar bq t with
  | none => rw [h1] at h; simp at h
  | some pr =>
    rw [h1] at h
    simp only [Option.isSome] at h
    cases h2 : splitOnChar bq pr.2 with
    | none => rw [h2] at h; simp at h
    | some pr2 =>
      have he1 := splitOnChar_eq (p := pr.1) (r := pr.2) (by rw [h1])
      have he2 := splitOnChar_eq (p := pr2.1) (r := pr2.2) (by rw [h2])
      rw [he1, he2]
      simp [cnt_append, cnt]
      omega

/-- global substitution for `link_pattern` `\[(.*?)\]\((.+?)\)` ↦ group 1. -/
def linkSubF : Nat → Str → Str
| _, [] => []
| 0, s => s
| fuel + 1, a :: t =>
  if a = '[' then
    match linkTry t with
    | some (g1, rest) => g1 ++ linkSubF fuel rest
    | none => a :: linkSubF fuel t
  else a :: linkSubF fuel t

def linkSub (s : Str) : Str := linkSubF s.length s

/-- `header_pattern` of `process_inline_formats`: `^(\*+) (.+?)(\*+)$`, returning
group 2.  The leading star run is forcibly maximal (a shorter `\*+` leaves a
star where the literal space is required); the lazy group 2 is the shortest
prefix leaving a nonempty all-star tail. -/
def hdrInline (s : Str) : Option Str :=
  let stars := s.takeWhile (fun c => c = '*')
  if stars.length = 0 then none else
  match s.drop stars.length with
  | c :: u =>
    if c = ' ' then
      let tst := (u.reverse.takeWhile (fun c => c = '*')).length
      if tst = 0 then none
      else if tst + 1 ≤ u.length then some (u.take (u.length - tst))
      else if 2 ≤ u.length then some (u.take 1)
      else none
    else none
  | [] => none

/-- `list_star_pattern`: `^\* (.+)$`, returning group 1. -/
def listStarM (s : Str) : Option Str :=
  match s with
  | a :: b :: r => if a = '*' ∧ b = ' ' ∧ r ≠ [] then some r else none
  | _ => none

/-- `process_inline_formats`: returns (processed text, is_bold, is_italic).
The bold and italic substitutions run only when their pattern matched (as in
the source); link, inline-code and strikethrough substitutions always run. -/
def processInline (s : Str) : Str × Bool × Bool :=
  match hdrInline s with
  | some mid => (mid, false, false)
  | none =>
  match listStarM s with
  | some r => (lit "• " ++ r, false, false)
  | none =>
    let isB := pairMatches '*' s
    let s1 := if isB then pairSubAll '*' s else s
    let isI := italicMatchesB s1
    let s2 := if isI then italicSub s1 else s1
    let s3 := linkSub s2
    let s4 := codeSub s3
    let s5 := pairSubAll '~' s4
    (s5, isB, isI)

/-- trailing part `\s*\*+$` of the `parse_line` title pattern:
optional whitespace, then at least one star, up to the end. -/
def remValid (r : Str) : Bool :=
  let r2 := r.dropWhile (fun c => pyIsSpace c)
  (decide (r2 ≠ [])) && r2.all (fun c => c = '*')

/-- lazy `(.+?)` of the title pattern: the shortest nonempty prefix of `u`
whose remainder satisfies `\s*\*+$`. -/
def midScan (u : Str) : Option Str :=
  (List.range u.length).findSome? fun i =>
    if remValid (u.drop (i + 1)) then some (u.take (i + 1)) else none

/-- greedy backtracking of the `\s*` after the leading stars: try the longest
whitespace run first, then shorter ones. -/
def hdrWloop (t : Str) : Nat → Option Str
| 0 => midScan t
| w + 1 =>
  match midScan (t.drop (w + 1)) with
  | some mid => some mid
  | none => hdrWloop t w

def hdrTryK (s : Str) (k : Nat) : Option Str :=
  let t := s.drop k
  hdrWloop t (t.takeWhile (fun c => pyIsSpace c)).length

/-- `parse_line`'s emphasized-title pattern `^\*+\s*(.+?)\s*\*+$` (group 1):
greedy backtracking over the length of the leading star run. -/
def hdrGo (s : Str) : Nat → Option Str
| 0 => none
| k + 1 =>
  match hdrTryK s (k + 1) with
  | some mid => some mid
  | none => hdrGo s k

def hdr1164 (s : Str) : Option Str :=
  hdrGo s (s.takeWhile (fun c => c = '*')).length

/-- `\s+(.+)$` : at least one whitespace, then a nonempty greedy rest; when
everything after the first whitespace is blank, the greedy `\s+` backtracks
and `(.+)` captures the final whitespace character. -/
def wsPlusRest (t : Str) : Option Str :=
  match t with
  | [] => none
  | b :: _ =>
    if pyIsSpace b then
      let w := t.takeWhile (fun c => pyIsSpace c)
      let r := t.drop w.length
      if r ≠ [] then some r
      else if 2 ≤ t.length then some (t.drop (t.length - 1))
      else none
    else none

/-- `^(\d+)\.\s+(.+)$` (numbered list item): (group 1, group 2). -/
def numListM (s : Str) : Option (Str × Str) :=
  let ds := s.takeWhile (fun c => c.isDigit)
  if ds.length = 0 then none else
  match s.drop ds.length with
  | c :: t => if c = '.' then (wsPlusRest t).map (fun r => (ds, r)) else none
  | [] => none

/-- `split_number_and_content`'s pattern `(\d+)\.\s*(.+)` anchored by
`re.match`: like `numListM` but the whitespace may be empty. -/
def splitNumM (s : Str) : Option (Str × Str) :=
  let ds := s.takeWhile (fun c => c.isDigit)
  if ds.length = 0 then none else
  match s.drop ds.length with
  | c :: t =>
    if c = '.' then
      let w := t.takeWhile (fun c => pyIsSpace c)
      let r := t.drop w.length
      if r ≠ [] then some (ds, r)
      else if t ≠ [] then some (ds, t.drop (t.length - 1))
      else none
    else none
  | [] => none

/-- unordered-list pattern `^(\s*)(\*|\-|\+)\s+(.+)$`:
(length of group 1, marker, group 3). -/
def listM (s : Str) : Option (Nat × Char × Str) :=
  let w := s.takeWhile (fun c => pyIsSpace c)
  match s.drop w.length with
  | m :: t =>
    if m = '*' ∨ m = '-' ∨ m = '+' then
      (wsPlusRest t).map (fun r => (w.length, m, r))
    else none
  | [] => none

/-- task-list pattern `^\[([ xX])\]\s+(.+)$`: (checked?, group 2). -/
def taskM (s : Str) : Option (Bool × Str) :=
  match s with
  | a :: c :: b :: t =>
    if a = '[' ∧ b = ']' ∧ (c = ' ' ∨ c = 'x' ∨ c = 'X') then
      (wsPlusRest t).map (fun r => (decide (c = 'x' ∨ c = 'X'), r))
    else none
  | _ => none

/-- `is_category_title`. -/
def isCategoryTitle (s : Str) : Bool :=
  decide (pyStrip s = lit "国内要闻") || decide (pyStrip s = lit "国际动态")

/-- `split_title_and_content`: split once at the full-width colon. -/
def splitTitleB (s : Str) : Str × Str :=
  match splitOnChar '：' s with
  | some (a, b) => (a ++ ['：'], pyStrip b)
  | none => (s, [])

/-- case-insensitive character comparison (`re.IGNORECASE`). -/
def ciEq (a b : Char) : Bool := a.toLower = b.toLower

/-- case-insensitive `startswith` returning the rest after the token. -/
def swCI : Str → Str → Option Str
| s, [] => some s
| [], _ :: _ => none
| a :: s, b :: p => if ciEq a b then swCI s p else none

/-- first case-insensitive occurrence of `tok` in `s`: (before, after). -/
def splitTokCI (tok : Str) : Str → Option (Str × Str)
| [] =>
  match swCI [] tok with
  | some rest => some ([], rest)
  | none => none
| a :: t =>
  match swCI (a :: t) tok with
  | some rest => some ([], rest)
  | none => (splitTokCI tok t).map fun pr => (a :: pr.1, pr.2)

/-- `(.*?)>(.*?)</span>` with backtracking of the first lazy group over the
successive `'>'` positions; returns (group 3, rest after the match). -/
def spanTailF : Nat → Str → Option (Str × Str)
| 0, _ => none
| fuel + 1, t =>
  match splitOnChar '>' t with
  | none => none
  | some (_, after) =>
    match splitTokCI (lit "</span>") after with
    | some (g3, rest) => some (g3, rest)
    | none => spanTailF fuel after

def spanTail (t : Str) : Option (Str × Str) := spanTailF t.length t

/-- delimiter class `[;"']` of `html_color_pattern`. -/
def isDelim (c : Char) : Bool := c = ';' || c = dqt || c = sqt

/-- attempt to match `html_color_pattern`
`<span\s+style=["']color:\s*([^;"']+)[;"'](.*?)>(.*?)</span>`
(case-insensitive, DOTALL) at the start of `s`;
returns (group 1, group 3, rest after the match).
The `\s*` before group 1 is greedy but backtracks one step when the first
character after the whitespace run is already the delimiter, so group 1 is
the non-delimiter run after `min(whitespace-run, run-1)` characters. -/
def spanAt (s : Str) : Option (Str × Str × Str) :=
  match swCI s (lit "<span") with
  | none => none
  | some r1 =>
    if (r1.takeWhile (fun c => pyIsSpace c)).length = 0 then none else
    match swCI (r1.drop (r1.takeWhile (fun c => pyIsSpace c)).length) (lit "style=") with
    | none => none
    | some r3 =>
      match r3 with
      | [] => none
      | q :: r4 =>
        if q = dqt ∨ q = sqt then
          match swCI r4 (lit "color:") with
          | none => none
          | some r5 =>
            match r5.drop (r5.takeWhile (fun c => ¬ isDelim c)).length with
            | [] => none
            | _ :: r7 =>
              if (r5.takeWhile (fun c => ¬ isDelim c)).length = 0 then none
              else
                (spanTail r7).map fun pr =>
                  (((r5.takeWhile (fun c => ¬ isDelim c)).drop
                      (min (r5.takeWhile (fun c => pyIsSpace c)).length
                        ((r5.takeWhile (fun c => ¬ isDelim c)).length - 1))),
                   pr.1, pr.2)
        else none

/-- leftmost match of `html_color_pattern` (`re.search` / first of `finditer`):
returns (text before the match, group 1, group 3, rest after the match). -/
def spanFind : Str → Option (Str × Str × Str × Str)
| [] => none
| a :: t =>
  match spanAt (a :: t) with
  | some (g1, g3, rest) => some ([], g1, g3, rest)
  | none => (spanFind t).map fun pr => (a :: pr.1, pr.2.1, pr.2.2.1, pr.2.2.2)

/-- `html_color_pattern.search(s)` as a Boolean. -/
def colorSearchB (s : Str) : Bool := (spanFind s).isSome

/-- the chunk decomposition induced by `html_color_pattern.finditer`:
alternating gap text (`Sum.inl`) and matches (`Sum.inr (group 1, group 3)`). -/
def spanChunksF : Nat → Str → List (Str ⊕ (Str × Str))
| 0, s => [Sum.inl s]
| fuel + 1, s =>
  match spanFind s with
  | none => [Sum.inl s]
  | some (before, g1, g3, rest) =>
    Sum.inl before :: Sum.inr (g1, g3) :: spanChunksF fuel rest

def spanChunks (s : Str) : List (Str ⊕ (Str × Str)) := spanChunksF s.length s

/-- `TextStyle` dataclass (field defaults as in the source). -/
structure TextStyle where
  font_name : Str := lit "regular"
  font_size : Nat := 30
  indent : Nat := 0
  line_spacing : Nat := 15
  is_title : Bool := false
  is_category : Bool := false
  keep_with_next : Bool := false
  is_code : Bool := false
  is_quote : Bool := false
  alignment : Str := lit "left"
  is_dark_theme : Bool := false
  is_list_item : Bool := false
  text_color : Option Str := none
  is_bold : Bool := false
  is_italic : Bool := false
deriving DecidableEq, Repr

/-- a run inside a composite segment (`original_segments` entries carry only
text and style). -/
structure SubSeg where
  text : Str
  style : TextStyle
deriving DecidableEq, Repr

/-- `TextSegment` dataclass; `originalSegments = []` models the absence of
the dynamically attached `original_segments` attribute. -/
structure TextSegment where
  text : Str
  style : TextStyle
  original_text : Str := []
  originalSegments : List SubSeg := []
deriving DecidableEq, Repr

/-- `ProcessedLine` dataclass; `sourceSeg` models the dynamically attached
`style._source_segment` used for composite lines. -/
structure ProcessedLine where
  text : Str
  style : TextStyle
  height : Nat := 0
  line_count : Nat := 1
  sourceSeg : Option TextSegment := none
deriving DecidableEq, Repr

/-- `ParserState`: the mutable fields of `MarkdownParser` reset by `reset`. -/
structure PState where
  current_section : Option Str := none
  in_code_block : Bool := false
  in_quote_block : Bool := false
  quote_indent : Nat := 0
  current_quote_group : Nat := 0
deriving DecidableEq, Repr

/-- Python truthiness of `self.current_section` (None and "" are falsy). -/
def sectionTruthy : Option Str → Bool
| none => false
| some s => decide (s ≠ [])

/-- a processed colored part: (text, color, is_bold, is_italic). -/
abbrev Part := Str × Option Str × Bool × Bool

/-- the `text_parts` list built from `html_color_pattern.finditer`: gap text
is kept when its strip is nonempty and processed unstripped; each match
contributes its stripped color value (group 1) and processed stripped
content (group 3). -/
def textPartsOf (s : Str) : List Part :=
  (spanChunks s).foldr
    (fun c acc =>
      match c with
      | Sum.inl g =>
        if pyStrip g ≠ [] then
          ((processInline g).1, none, (processInline g).2.1, (processInline g).2.2) :: acc
        else acc
      | Sum.inr (g1, g3) =>
        ((processInline (pyStrip g3)).1, some (pyStrip g1),
         (processInline (pyStrip g3)).2.1, (processInline (pyStrip g3)).2.2) :: acc)
    []

def partsText (ps : List Part) : Str := ps.foldl (fun a p => a ++ p.1) []

/-- composite segment for a numbered list item with color tags
(`parse_line`, first branch). -/
def numColorSegment (number : Str) (parts : List Part) : TextSegment :=
  { text := number ++ lit ". " ++ partsText parts,
    style := { font_name := lit "bold", indent := 0, line_spacing := 15,
               is_list_item := true, is_bold := true },
    originalSegments :=
      { text := number ++ lit ". ",
        style := { font_name := lit "bold", line_spacing := 15,
                   is_bold := true, is_list_item := true } } ::
      parts.map (fun p =>
        { text := p.1,
          style := { font_name := if p.2.2.1 then lit "bold" else lit "regular",
                     line_spacing := 15, text_color := p.2.1,
                     is_bold := p.2.2.1, is_italic := p.2.2.2,
                     is_list_item := true } }) }

/-- composite segment for a `split_number_and_content` news entry with color
tags (base style has no bold flag; the number run does). -/
def newsColorSegment (number : Str) (parts : List Part) : TextSegment :=
  { text := number ++ lit ". " ++ partsText parts,
    style := { font_name := lit "bold", indent := 0, line_spacing := 15,
               is_list_item := true },
    originalSegments :=
      { text := number ++ lit ". ",
        style := { font_name := lit "bold", indent := 0, line_spacing := 15,
                   is_bold := true, is_list_item := true } } ::
      parts.map (fun p =>
        { text := p.1,
          style := { font_name := if p.2.2.1 then lit "bold" else lit "regular",
                     indent := 0, line_spacing := 15, text_color := p.2.1,
                     is_bold := p.2.2.1, is_italic := p.2.2.2,
                     is_list_item := true } }) }

def taskPrefix (isTask isChecked : Bool) : Str :=
  if isTask then (if isChecked then lit "[x] " else lit "[ ] ") else lit "• "

/-- `color_segments` of the unordered-list branch: the marker prefix is
prepended to the first emitted part only (`marker_added`). -/
def listColorGo (isTask isChecked : Bool) (ind : Nat) :
    Bool → List (Str ⊕ (Str × Str)) → List TextSegment
| _, [] => []
| ma, Sum.inl g :: rest =>
  if pyStrip g ≠ [] then
    { text := (if ma then [] else taskPrefix isTask isChecked) ++ (processInline g).1,
      style := { font_name := if (processInline g).2.1 then lit "bold" else lit "regular",
                 indent := ind, line_spacing := 15, is_list_item := true,
                 is_bold := (processInline g).2.1,
                 is_italic := (processInline g).2.2 } } ::
      listColorGo isTask isChecked ind true rest
  else listColorGo isTask isChecked ind ma rest
| ma, Sum.inr (g1, g3) :: rest =>
  { text := (if ma then [] else taskPrefix isTask isChecked) ++ (processInline (pyStrip g3)).1,
    style := { font_name := if (processInline (pyStrip g3)).2.1 then lit "bold" else lit "regular",
               indent := ind, line_spacing := 15,
               text_color := some (pyStrip g1), is_list_item := true,
               is_bold := (processInline (pyStrip g3)).2.1,
               is_italic := (processInline (pyStrip g3)).2.2 } } ::
    listColorGo isTask isChecked ind true rest

/-- does the emphasized title text begin with a Chinese ordinal prefix. -/
def zhOrdinal (t : Str) : Bool :=
  sw t (lit "一、") || sw t (lit "二、") || sw t (lit "三、") || sw t (lit "四、")

/-- `MarkdownParser.parse_line`, returning the produced segments and the
state after the call (`current_section` may be set by a `##` heading). -/
def parse_line (ie : Char → Bool) (st : PState) (text : Str) :
    List TextSegment × PState :=
  if pyStrip text = [] then ([{ text := [], style := {} }], st)
  else if st.in_code_block then
    ([{ text := text,
        style := { font_name := lit "regular", indent := 40, line_spacing := 10,
                   is_code := true } }], st)
  else
    match numListM text with
    | some (number, content) =>
      if colorSearchB content then
        match textPartsOf content with
        | [] =>
          ([{ text := number ++ lit ". " ++ (processInline content).1,
              style := { font_name := lit "bold", indent := 0, line_spacing := 15,
                         is_list_item := true, is_bold := true } }], st)
        | p :: ps => ([numColorSegment number (p :: ps)], st)
      else
        ([{ text := number ++ lit ". " ++ (processInline content).1,
            style := { font_name := lit "bold", indent := 0, line_spacing := 15,
                       is_list_item := true, is_bold := true } }], st)
    | none =>
    if sw (pyStrip text) (lit "# ") then
      ([{ text := pyStrip (text.drop 2),
          style := { font_name := lit "bold", font_size := 40, is_title := true,
                     indent := 0, is_bold := true } }], st)
    else if sw (pyStrip text) (lit "## ") then
      ([{ text := (processInline (pyStrip (text.drop 3))).1,
          style := { font_name := lit "bold", font_size := 35, is_title := true,
                     line_spacing := 25, indent := 0, is_bold := true } }],
       { st with current_section := some (processInline (pyStrip (text.drop 3))).1 })
    else if sw (pyStrip text) (lit "### ") then
      ([{ text := (processInline (pyStrip (text.drop 4))).1,
          style := { font_name := lit "bold", font_size := 32, is_title := true,
                     line_spacing := 20, indent := 0, is_bold := true } }], st)
    else
    match listM text with
    | some (nsp, _, content0) =>
      let stripped := pyStrip content0
      let tk := taskM stripped
      let isTask := tk.isSome
      let isChecked := match tk with | some (b, _) => b | none => false
      let listContent := match tk with | some (_, r) => pyStrip r | none => stripped
      let ind := 40 + nsp * 8
      if colorSearchB listContent then
        let colorSegs :=
          (listColorGo isTask isChecked ind false (spanChunks listContent)).map
            (fun sg => { sg with style := { sg.style with is_list_item := true } })
        if 1 < colorSegs.length then
          ([{ text := colorSegs.foldl (fun a sg => a ++ sg.text) [],
              style := { font_name := lit "regular", indent := ind,
                         line_spacing := 15, is_list_item := true },
              originalSegments := colorSegs.map (fun sg => { text := sg.text, style := sg.style }) }],
           st)
        else (colorSegs, st)
      else
        if isTask then
          if isChecked then
            ([{ text := lit "[x] " ++ (processInline listContent).1,
                style := { font_name := lit "bold", indent := ind, line_spacing := 15,
                           is_list_item := true, text_color := some (lit "#22AA22"),
                           is_bold := true } }], st)
          else
            ([{ text := lit "[ ] " ++ (processInline listContent).1,
                style := { font_name := lit "bold", indent := ind, line_spacing := 15,
                           is_list_item := true, text_color := some (lit "#777777"),
                           is_bold := true } }], st)
        else
          ([{ text := lit "• " ++ (processInline listContent).1,
              style := { font_name := if (processInline listContent).2.1 then lit "bold" else lit "regular",
                         indent := ind, line_spacing := 15, is_list_item := true,
                         is_bold := (processInline listContent).2.1,
                         is_italic := (processInline listContent).2.2 } }], st)
    | none =>
    if colorSearchB text then
      match textPartsOf text with
      | [] => ([], st)
      | p :: ps =>
        let segs := (p :: ps).map (fun q =>
          ({ text := q.1,
             style := { font_name := if q.2.2.1 then lit "bold" else lit "regular",
                        indent := if sectionTruthy st.current_section then 40 else 0,
                        line_spacing := 15, text_color := q.2.1,
                        is_bold := q.2.2.1, is_italic := q.2.2.2 } } : TextSegment))
        if segs.length = 1 then (segs, st)
        else
          ([{ text := segs.foldl (fun a sg => a ++ sg.text) [],
              style := { font_name := lit "regular",
                         indent := if sectionTruthy st.current_section then 40 else 0,
                         line_spacing := 15 },
              originalSegments := segs.map (fun sg => { text := sg.text, style := sg.style }) }],
           st)
    else
    match hdr1164 text with
    | some titleText =>
      if zhOrdinal titleText then
        ([{ text := titleText,
            style := { font_name := lit "bold", font_size := 38, is_title := true,
                       line_spacing := 25, indent := 0, is_bold := true } }], st)
      else
        ([{ text := titleText,
            style := { font_name := lit "bold", font_size := 35, is_title := true,
                       line_spacing := 20, indent := 0, is_bold := true } }], st)
    | none =>
    if isCategoryTitle text then
      ([{ text := pyStrip text,
          style := { font_name := lit "bold", font_size := 35, is_category := true,
                     line_spacing := 25, indent := 0, is_bold := true } }], st)
    else if (match text with | c :: _ => ie c | [] => false) then
      ([{ text := (processInline (pyStrip text)).1,
          style := { font_name := lit "bold", font_size := 40, is_title := true,
                     line_spacing := 25, indent := 0, is_bold := true } }], st)
    else
    match splitNumM text with
    | some (number, content) =>
      if colorSearchB content then
        match textPartsOf content with
        | [] =>
          let content2 := (processInline content).1
          let tb := splitTitleB content2
          let titleSeg : TextSegment :=
            { text := number ++ lit ". " ++ tb.1,
              style := { font_name := lit "bold", indent := 0, is_title := true,
                         line_spacing := if tb.2 ≠ [] then 15 else 20,
                         is_bold := true } }
          if tb.2 ≠ [] then
            ([titleSeg,
              { text := (processInline tb.2).1,
                style := { font_name := if (processInline tb.2).2.1 then lit "bold" else lit "regular",
                           indent := 40, line_spacing := 20,
                           is_bold := (processInline tb.2).2.1,
                           is_italic := (processInline tb.2).2.2 } }], st)
          else ([titleSeg], st)
        | p :: ps => ([newsColorSegment number (p :: ps)], st)
      else
        let content2 := (processInline content).1
        let tb := splitTitleB content2
        let titleSeg : TextSegment :=
          { text := number ++ lit ". " ++ tb.1,
            style := { font_name := lit "bold", indent := 0, is_title := true,
                       line_spacing := if tb.2 ≠ [] then 15 else 20,
                       is_bold := true } }
        if tb.2 ≠ [] then
          ([titleSeg,
            { text := (processInline tb.2).1,
              style := { font_name := if (processInline tb.2).2.1 then lit "bold" else lit "regular",
                         indent := 40, line_spacing := 20,
                         is_bold := (processInline tb.2).2.1,
                         is_italic := (processInline tb.2).2.2 } }], st)
        else ([titleSeg], st)
    | none =>
    if sw (pyStrip text) (lit "-") then
      ([{ text := (processInline (pyStrip text)).1,
          style := { font_name := if (processInline (pyStrip text)).2.1 then lit "bold" else lit "regular",
                     indent := 40, line_spacing := 15,
                     is_bold := (processInline (pyStrip text)).2.1,
                     is_italic := (processInline (pyStrip text)).2.2 } }], st)
    else
      ([{ text := (processInline (pyStrip text)).1,
          style := { font_name := if (processInline (pyStrip text)).2.1 then lit "bold" else lit "regular",
                     indent := if sectionTruthy st.current_section then 40 else 0,
                     line_spacing := 15,
                     is_bold := (processInline (pyStrip text)).2.1,
                     is_italic := (processInline (pyStrip text)).2.2 } }], st)

/-- consume one line: (line, rest after the newline), `none` when the input
ends without a newline.  Handles `\n`, `\r\n` and `\r`. -/
def breakNl : Str → Str × Option Str
| [] => ([], none)
| c :: t =>
  if c = '\n' then ([], some t)
  else if c = '\r' then
    match t with
    | c2 :: t2 => if c2 = '\n' then ([], some t2) else ([], some t)
    | [] => ([], some [])
  else
    (c :: (breakNl t).1, (breakNl t).2)

/-- Python `str.splitlines` (for `\n`, `\r\n`, `\r`): no entry for a trailing
newline, and the empty string yields no lines. -/
def splitLinesF : Nat → Str → List Str
| _, [] => []
| 0, s => [s]
| fuel + 1, c :: t =>
  match (breakNl (c :: t)).2 with
  | none => [(breakNl (c :: t)).1]
  | some r => (breakNl (c :: t)).1 :: splitLinesF fuel r

def splitLines (s : Str) : List Str := splitLinesF s.length s

/-- the `while '> '` marker-stripping loop of the quote branch:
(quote level, remaining content).  A bare `">"` strips nothing. -/
def quoteStripF : Nat → Str → Nat × Str
| 0, s => (0, s)
| fuel + 1, s =>
  if sw s (lit "> ") then
    ((quoteStripF fuel (s.drop 2)).1 + 1, (quoteStripF fuel (s.drop 2)).2)
  else (0, s)

def quoteStrip (s : Str) : Nat × Str := quoteStripF s.length s

/-- the inner `while` of the fenced-code branch: collect raw lines until one
starts with three backquotes; returns (interior, closer found?, rest). -/
def fenceSplit : List Str → List Str × Bool × List Str
| [] => ([], false, [])
| l :: t =>
  if sw l (lit "```") then ([], true, t)
  else
    ((fenceSplit t).1.cons l, (fenceSplit t).2.1, (fenceSplit t).2.2)

theorem fenceSplit_len : ∀ ls : List Str, (fenceSplit ls).2.2.length ≤ ls.length := by
  intro ls
  induction ls with
  | nil => simp [fenceSplit]
  | cons l t ih =>
    rw [fenceSplit]
    by_cases hsw : sw l (lit "```") = true
    · rw [if_pos hsw]; simp
    · rw [if_neg hsw]; simp only [List.length_cons]; omega

def replChar (c : Char) (rep : Str) : Str → Str
| [] => []
| a :: t => (if a = c then rep else [a]) ++ replChar c rep t

/-- `code_text.replace('<','&lt;').replace('>','&gt;')`. -/
def escapeHtml (s : Str) : Str := replChar '>' (lit "&gt;") (replChar '<' (lit "&lt;") s)

def joinNl (ls : List Str) : Str := List.intercalate ['\n'] ls

/-- one styled run of a quote composite segment. -/
def quoteColorSegment (qi : Nat) (parts : List Part) : TextSegment :=
  { text := partsText parts,
    style := { font_name := lit "regular", indent := 40 + qi, line_spacing := 15,
               is_quote := true },
    originalSegments := parts.map (fun p =>
      { text := p.1,
        style := { font_name := if p.2.2.1 then lit "bold" else lit "regular",
                   indent := 40 + qi, line_spacing := 15, is_quote := true,
                   text_color := p.2.1, is_bold := p.2.2.1, is_italic := p.2.2.2 } }) }

/-- blank-line spacer segment: empty text, default style except spacing. -/
def spacerSeg (sp : Nat) : TextSegment := { text := [], style := { line_spacing := sp } }

/-- the trailing right-aligned signature segment. -/
def sigSeg (sig : Str) : TextSegment := { text := sig, style := { alignment := lit "right" } }

/-- the tuple of list starters used by the spacer rule
(`('*','-','+','1.','2.','3.')`). -/
def listPrefixAny (s : Str) : Bool :=
  sw s (lit "*") || sw s (lit "-") || sw s (lit "+") ||
  sw s (lit "1.") || sw s (lit "2.") || sw s (lit "3.")

/-- the segment(s) appended by the quote branch of the line loop for a quote
line with indent `qi` and stripped content `qc`: an empty quote segment for
blank content; the color-tag path (simple when a single uncolored part,
composite otherwise); or the simple inline-processed quote segment. -/
def quoteSegsOf (qi : Nat) (qc : Str) : List TextSegment :=
  if qc = [] then
    [{ text := [],
       style := { font_name := lit "regular", indent := 40 + qi,
                  line_spacing := 8, is_quote := true } }]
  else if colorSearchB qc then
    match textPartsOf qc with
    | [] => []
    | [p] =>
      match p.2.1 with
      | none =>
        [{ text := p.1,
           style := { font_name := if p.2.2.1 then lit "bold" else lit "regular",
                      indent := 40 + qi, line_spacing := 15, is_quote := true,
                      is_bold := p.2.2.1, is_italic := p.2.2.2 } }]
      | some _ => [quoteColorSegment qi [p]]
    | p :: q :: ps => [quoteColorSegment qi (p :: q :: ps)]
  else
    [{ text := (processInline qc).1,
       style := { font_name := if (processInline qc).2.1 then lit "bold" else lit "regular",
                  indent := 40 + qi, line_spacing := 15, is_quote := true,
                  is_bold := (processInline qc).2.1,
                  is_italic := (processInline qc).2.2 } }]

/-- one iteration of the main line loop of `MarkdownParser.parse`: consume
the first line, returning the remaining lines (the fenced-code branch also
consumes the block), the new parser state, and the extended segment list.
The accumulated segments are an input because the blank-line rule inspects
`segments[-1]`. -/
def parseStep (ie : Char → Bool) (l0 : Str) (rest : List Str) (st : PState)
    (acc : List TextSegment) : List Str × PState × List TextSegment :=
  if sw (pyRstrip l0) (lit "```") then
    if st.in_code_block = false then
      ((fenceSplit rest).2.2,
       { st with in_code_block := !(fenceSplit rest).2.1 },
       acc ++ [{ text := escapeHtml (joinNl (fenceSplit rest).1),
                 style := { font_name := lit "regular", indent := 40,
                            line_spacing := 10, is_code := true },
                 original_text :=
                   if (fenceSplit rest).2.1 then
                     lit "```" ++ pyStrip ((pyRstrip l0).drop 3) ++ ['\n'] ++
                       escapeHtml (joinNl (fenceSplit rest).1) ++ ['\n'] ++ lit "```"
                   else
                     lit "```" ++ pyStrip ((pyRstrip l0).drop 3) ++ ['\n'] ++
                       escapeHtml (joinNl (fenceSplit rest).1) }])
    else (rest, { st with in_code_block := false }, acc)
  else if sw (pyRstrip l0) (lit "> ") || (decide (pyRstrip l0 = ['>']) && !st.in_code_block) then
    (rest,
     { st with in_quote_block := true,
               quote_indent := (quoteStrip (pyRstrip l0)).1 * 20 },
     acc ++ quoteSegsOf ((quoteStrip (pyRstrip l0)).1 * 20)
              (pyStrip (quoteStrip (pyRstrip l0)).2))
  else
    if pyRstrip l0 = [] then
      if rest.any (fun l => decide (pyStrip l ≠ [])) then
        (rest, { st with in_quote_block := false, quote_indent := 0 },
         acc ++ [spacerSeg (if (match acc.getLast? with
                                | some sg => sg.style.is_title
                                | none => false) then 20 else 15)])
      else (rest, { st with in_quote_block := false, quote_indent := 0 }, acc)
    else
      match rest with
      | [] =>
        ([], (parse_line ie { st with in_quote_block := false, quote_indent := 0 } (pyRstrip l0)).2,
         acc ++ (parse_line ie { st with in_quote_block := false, quote_indent := 0 } (pyRstrip l0)).1)
      | l2 :: rest2 =>
        if rest.any (fun l => decide (pyStrip l ≠ [])) &&
           !((match (parse_line ie { st with in_quote_block := false, quote_indent := 0 } (pyRstrip l0)).1.getLast? with
              | some sg => sg.style.is_list_item
              | none => false) &&
             listPrefixAny (pyStrip l2)) then
          (l2 :: rest2,
           (parse_line ie { st with in_quote_block := false, quote_indent := 0 } (pyRstrip l0)).2,
           acc ++ (parse_line ie { st with in_quote_block := false, quote_indent := 0 } (pyRstrip l0)).1 ++
            [spacerSeg (match (parse_line ie { st with in_quote_block := false, quote_indent := 0 } (pyRstrip l0)).1.getLast? with
                        | some sg => sg.style.line_spacing
                        | none => 15)])
        else
          (l2 :: rest2,
           (parse_line ie { st with in_quote_block := false, quote_indent := 0 } (pyRstrip l0)).2,
           acc ++ (parse_line ie { st with in_quote_block := false, quote_indent := 0 } (pyRstrip l0)).1)

/-- the main line loop of `MarkdownParser.parse` (everything between
`reset()` and the signature): iterate `parseStep` over the lines.  The fuel
only bounds the recursion; every step consumes at least one line. -/
def parseLoopF (ie : Char → Bool) : Nat → List Str → PState → List TextSegment → List TextSegment
| _, [], _, acc => acc
| 0, _ :: _, _, acc => acc
| fuel + 1, l0 :: rest, st, acc =>
  parseLoopF ie fuel (parseStep ie l0 rest st acc).1
    (parseStep ie l0 rest st acc).2.1 (parseStep ie l0 rest st acc).2.2

/-- the main line loop at its canonical fuel (the number of lines). -/
def parseLoop (ie : Char → Bool) (lines : List Str) (st : PState)
    (acc : List TextSegment) : List TextSegment :=
  parseLoopF ie lines.length lines st acc

theorem parseStep_len (ie : Char → Bool) (l0 : Str) (rest : List Str)
    (st : PState) (acc : List TextSegment) :
    (parseStep ie l0 rest st acc).1.length ≤ rest.length := by
  rw [parseStep.eq_def]
  repeat' split
  all_goals simp_all
  all_goals (have h := fenceSplit_len rest; omega)

theorem parseLoopF_eq (ie : Char → Bool) : ∀ fuel (lines : List Str) st acc,
    lines.length ≤ fuel → parseLoopF ie fuel lines st acc = parseLoop ie lines st acc := by
  intro fuel
  induction fuel using Nat.strong_induction_on with
  | _ fuel ih =>
    intro lines st acc hlen
    match lines with
    | [] => cases fuel <;> rfl
    | l0 :: rest =>
      simp only [List.length_cons] at hlen
      obtain ⟨f2, rfl⟩ : ∃ f2, fuel = f2 + 1 := ⟨fuel - 1, by omega⟩
      rw [parseLoop]
      simp only [List.length_cons]
      rw [parseLoopF, parseLoopF]
      have hstep := parseStep_len ie l0 rest st acc
      rw [ih f2 (by omega) _ _ _ (by omega),
          ih rest.length (by omega) _ _ _ hstep]

/-- `MarkdownParser.parse`: `reset()` discards the pre-call state, the line
loop runs from the fresh state, and the configured signature segment is
appended last.  `sig` is the resolved `config.SIGNATURE_TEXT`
(`"—飞天"` from the fallback configuration, `"—By 飞天"` when the real
configuration object lacks the attribute). -/
def parseM (ie : Char → Bool) (sig : Str) (st : PState) (text : Str) : List TextSegment :=
  parseLoop ie (splitLines text) ({} : PState) [] ++ [sigSeg sig]

/-- `re.sub(r'<[^>]*?>', '', text)`: drop each `<`...`>` span (a `<` with no
later `>` stays). -/
def stripTagsF : Nat → Str → Str
| _, [] => []
| 0, s => s
| fuel + 1, a :: t =>
  if a = '<' then
    match splitOnChar '>' t with
    | some (_, r) => stripTagsF fuel r
    | none => a :: stripTagsF fuel t
  else a :: stripTagsF fuel t

def stripTags (s : Str) : Str := stripTagsF s.length s

/-- `measure_text`: strip HTML tags, then sum per-character advance widths
and take the maximum per-character bounding height.  `cw`/`ch` abstract the
font metrics (including the emoji-font dispatch, which picks the metric per
character). -/
def measureText (cw ch : Char → Nat) (s : Str) : Nat × Nat :=
  ((stripTags s).foldl (fun acc c => acc + cw c) 0,
   (stripTags s).foldl (fun acc c => max acc (ch c)) 0)

/-- separators of the plain-text tokenizer in `split_text_to_lines`. -/
def plainSeps : List Char := [' ', '，', '。', '：', '、', '！', '？', '；']

/-- the plain-text tokenizer of `split_text_to_lines`: emoji and CJK
characters (codepoint above 0x4e00) become single tokens, separators are
their own tokens, anything else accumulates. -/
def plainWordsGo (ie : Char → Bool) (cur : Str) : Str → List Str
| [] => if cur ≠ [] then [cur] else []
| c :: t =>
  if ie c then
    (if cur ≠ [] then [cur] else []) ++ [[c]] ++ plainWordsGo ie [] t
  else if c ∈ plainSeps then
    (if cur ≠ [] then [cur] else []) ++ [[c]] ++ plainWordsGo ie [] t
  else if 0x4e00 < c.toNat then
    (if cur ≠ [] then [cur] else []) ++ [[c]] ++ plainWordsGo ie [] t
  else plainWordsGo ie (cur ++ [c]) t

def plainWords (ie : Char → Bool) (s : Str) : List Str := plainWordsGo ie [] s

/-- the code-block tokenizer of `split_text_to_lines` (separators are only
space and tab; no CJK splitting). -/
def codeWordsGo (ie : Char → Bool) (cur : Str) : Str → List Str
| [] => if cur ≠ [] then [cur] else []
| c :: t =>
  if ie c then
    (if cur ≠ [] then [cur] else []) ++ [[c]] ++ codeWordsGo ie [] t
  else if c = ' ' ∨ c = '\t' then
    (if cur ≠ [] then [cur] else []) ++ [[c]] ++ codeWordsGo ie [] t
  else codeWordsGo ie (cur ++ [c]) t

def codeWords (ie : Char → Bool) (s : Str) : List Str := codeWordsGo ie [] s

/-- greedy fill of the plain path: the running `line_height` is the maximum
measured height seen so far (never reset between flushed lines, as in the
source). -/
def greedyPlain (cw ch : Char → Nat) (style : TextStyle) (w : Nat) :
    Str → Nat → List Str → List ProcessedLine
| cur, lineH, [] =>
  if cur ≠ [] then [{ text := cur, style := style, height := lineH, line_count := 1 }] else []
| cur, lineH, word :: ws =>
  if (measureText cw ch (cur ++ word)).1 ≤ w then
    greedyPlain cw ch style w (cur ++ word)
      (max lineH (measureText cw ch (cur ++ word)).2) ws
  else if cur ≠ [] then
    { text := cur, style := style,
      height := max lineH (measureText cw ch (cur ++ word)).2, line_count := 1 } ::
      greedyPlain cw ch style w word
        (max lineH (measureText cw ch (cur ++ word)).2) ws
  else greedyPlain cw ch style w word
    (max lineH (measureText cw ch (cur ++ word)).2) ws

/-- greedy fill of the code path: every produced line carries the height
measured for the whole original physical line. -/
def greedyCode (cw ch : Char → Nat) (style : TextStyle) (w : Nat) (height : Nat) :
    Str → List Str → List ProcessedLine
| cur, [] =>
  if cur ≠ [] then [{ text := cur, style := style, height := height, line_count := 1 }] else []
| cur, word :: ws =>
  if (measureText cw ch (cur ++ word)).1 ≤ w then
    greedyCode cw ch style w height (cur ++ word) ws
  else if cur ≠ [] then
    { text := cur, style := style, height := height, line_count := 1 } ::
      greedyCode cw ch style w height word ws
  else greedyCode cw ch style w height word ws

/-- Python `text.split('\n')` (keeps empty pieces). -/
def splitNl : Str → List Str
| [] => [[]]
| c :: t =>
  if c = '\n' then [] :: splitNl t
  else
    match splitNl t with
    | h :: r => (c :: h) :: r
    | [] => [[c]]

/-- `TextRenderer.split_text_to_lines`.  A literal `"\n"` segment forces one
empty line; a composite segment (nonempty `originalSegments`) is returned as
a single unwrapped line carrying its source segment; code segments keep
their physical lines; anything else is tokenized and greedily filled. -/
def splitTextToLines (cw ch : Char → Nat) (ie : Char → Bool)
    (seg : TextSegment) (w : Nat) : List ProcessedLine :=
  if seg.text = ['\n'] then
    [{ text := [], style := seg.style, height := 20, line_count := 1 }]
  else if seg.originalSegments ≠ [] then
    [{ text := seg.text, style := seg.style,
       height := (measureText cw ch seg.text).2, line_count := 1,
       sourceSeg := some seg }]
  else if seg.style.is_code then
    (splitNl seg.text).flatMap (fun ln =>
      if ln = [] then
        [{ text := [], style := seg.style, height := seg.style.font_size, line_count := 1 }]
      else
        greedyCode cw ch seg.style w (measureText cw ch ln).2 [] (codeWords ie ln))
  else
    greedyPlain cw ch seg.style w [] 0 (plainWords ie seg.text)

/-- `TextRenderer.calculate_height`, written with the previous content line
and the remaining lines made explicit (`rest = []` iff the current index is
the last; `rest.any …` is the look-ahead for later content). -/
def calcGo : Option ProcessedLine → List ProcessedLine → Nat
| _, [] => 0
| prev, l :: rest =>
  if pyStrip l.text = [] then
    (if rest.any (fun x => decide (pyStrip x.text ≠ [])) then
       (match prev with
        | some p => p.style.line_spacing
        | none => 0)
     else 0) + calcGo prev rest
  else
    (if prev.isSome ∧ rest ≠ [] then
       (match prev with
        | some p =>
          if p.style.is_category then 30
          else if p.style.is_title ∧ ¬ l.style.is_title then 20
          else l.style.line_spacing
        | none => 0)
     else 0) +
    (l.height * l.line_count +
      (if l.style.is_code then 20 else 0) +
      (if l.style.is_quote then 10 else 0) +
      (if rest = [] then 40 else 0)) +
    calcGo (some l) rest

def calculateHeight (ls : List ProcessedLine) : Nat := calcGo none ls

/-- total advance of the drawing cursor `current_y` over the per-line render
loop of `generate_image` (blank lines advance by their own spacing when
later content exists; content lines advance by `height + spacing`, the last
by `height` only). -/
def drawAdvance : List ProcessedLine → Nat
| [] => 0
| l :: rest =>
  (if pyStrip l.text = [] then
     (if rest.any (fun x => decide (pyStrip x.text ≠ [])) then l.style.line_spacing else 0)
   else
     (if rest = [] then l.height else l.height + l.style.line_spacing)) +
  drawAdvance rest

/-- the `ProcessedLine` list assembled by `generate_image` before the height
computation: parse, set the theme flag on every style, then wrap each
segment at `max_content_width − indent` (blank segments become empty
zero-height lines).  `d` is the wall-clock theme flag. -/
def processedLinesOf (cw ch : Char → Nat) (ie : Char → Bool) (d : Bool)
    (sig : Str) (text : Str) : List ProcessedLine :=
  ((parseM ie sig {} text).map
     (fun sg => { sg with style := { sg.style with is_dark_theme := d } })).flatMap
    (fun sg =>
      if pyStrip sg.text ≠ [] then
        splitTextToLines cw ch ie sg (560 - sg.style.indent)
      else
        [{ text := [], style := sg.style, height := 0, line_count := 1 }])

/-!  ## Concrete instances used by witnesses and counterexamples  -/

/-- concrete emoji classifier: nothing is an emoji. -/
def ieF : Char → Bool := fun _ => false

/-- the resolved signature string of the fallback configuration. -/
def sigD : Str := lit "—飞天"

/-- width metric: every character one unit wide. -/
def cwOne : Char → Nat := fun _ => 1

/-- width metric: every character ten units wide. -/
def cwTen : Char → Nat := fun _ => 10

/-- height metric: every character ten units tall. -/
def chTen : Char → Nat := fun _ => 10

/-- a concrete composite segment with two styled runs, as produced for a
multi-color line. -/
def cseg : TextSegment :=
  { text := lit "ab", style := {},
    originalSegments := [{ text := lit "ab", style := {} }] }

/-!  ## The claims  -/

/-- C9: `parse` is deterministic and resets all parser state at the start of
each call: the returned segment sequence is a function of the input text and
the resolved signature alone — it does not depend on the parser state left
behind by any earlier call (and the embedding consults no clock and no
randomness). -/
theorem c9_parse_deterministic (ie : Char → Bool) (sig : Str)
    (st st' : PState) (text : Str) :
    parseM ie sig st text = parseM ie sig st' text := rfl

/-- C5 counterexample: on `"hi\n~~~~"` the line `"~~~~"` strips to nothing
after strikethrough processing and is emitted as an empty-text segment, so a
spacer-shaped segment does sit between the last content segment and the
signature (the blank-line rule also emits one after `"hi"`). -/
theorem c5_counterexample :
    (parseM ieF sigD {} (lit "hi\n~~~~")).map
        (fun sg => (sg.text, sg.style.alignment)) =
      [(lit "hi", lit "left"), ([], lit "left"), ([], lit "left"),
       (sigD, lit "right")] := by
  decide

/-- C5 (amended): `parse` always returns a non-empty list whose last element
is the right-aligned signature segment; nothing is emitted after it.  (The
"no spacer-shaped segment before the signature" half of the original claim
is refuted by `c5_counterexample`.) -/
theorem c5_signature_last (ie : Char → Bool) (sig : Str) (st : PState)
    (text : Str) :
    parseM ie sig st text ≠ [] ∧
      (parseM ie sig st text).getLast? = some (sigSeg sig) := by
  refine ⟨by simp [parseM], ?_⟩
  simp [parseM, List.getLast?_concat]

/-- C3: contrary to the spec (and to the stripping comment in the source),
a quote line that is exactly `">"` keeps its marker visible: the middle
segment of `"> line1\n>\n> line2"` has text `">"`, not `""` — the stripping
loop removes only `"> "` with its trailing space. -/
theorem c3_bare_quote_marker :
    (parseM ieF sigD {} (lit "> line1\n>\n> line2")).map
        (fun sg => (sg.text, sg.style.is_quote)) =
      [(lit "line1", true), (['>'], true), (lit "line2", true),
       (sigD, false)] := by
  decide

/-- C10: a composite segment (nonempty `original_segments`, text other than
the literal newline) is never wrapped: `split_text_to_lines` returns exactly
one line carrying the segment's full concatenated text, whatever the
available width. -/
theorem c10_composite_single_line (cw ch : Char → Nat) (ie : Char → Bool)
    (seg : TextSegment) (w : Nat)
    (hnl : seg.text ≠ ['\n']) (hcomp : seg.originalSegments ≠ []) :
    splitTextToLines cw ch ie seg w =
      [{ text := seg.text, style := seg.style,
         height := (measureText cw ch seg.text).2, line_count := 1,
         sourceSeg := some seg }] := by
  rw [splitTextToLines, if_neg hnl, if_pos hcomp]

/-- C10 witness: the concrete composite segment `cseg` at width 0 comes back
as a single unwrapped line. -/
theorem c10_witness :
    cseg.text ≠ ['\n'] ∧ cseg.originalSegments ≠ [] ∧
      splitTextToLines cwOne chTen ieF cseg 0 =
        [{ text := cseg.text, style := cseg.style,
           height := (measureText cwOne chTen cseg.text).2, line_count := 1,
           sourceSeg := some cseg }] :=
  ⟨by decide, by decide,
   c10_composite_single_line cwOne chTen ieF cseg 0 (by decide) (by decide)⟩

/-- C4 counterexample: `"- a\n\n- b"` — two list items separated by exactly
one blank line — parses with two spacer segments between the items, so the
claimed one-blank-line list continuity does not hold. -/
theorem c4_counterexample :
    (parseM ieF sigD {} (lit "- a\n\n- b")).map
        (fun sg => (sg.text, sg.style.is_list_item)) =
      [(lit "• a", true), ([], false), ([], false), (lit "• b", true),
       (sigD, false)] := by
  decide

/-- C4 (amended): the list-continuity rule applies to adjacent lines only:
when a parsed line ends in a list-item segment and the immediately following
line starts (after stripping) with one of `*`, `-`, `+`, `1.`, `2.`, `3.`,
the line loop appends the parsed segments with no spacer after them. -/
theorem c4_adjacent_no_spacer (ie : Char → Bool) (l0 l2 : Str)
    (rest2 : List Str) (st : PState) (acc : List TextSegment)
    (h1 : sw (pyRstrip l0) (lit "```") = false)
    (h2a : sw (pyRstrip l0) (lit "> ") = false)
    (h2b : (decide (pyRstrip l0 = ['>']) && !st.in_code_block) = false)
    (h3 : pyRstrip l0 ≠ [])
    (h4 : ((parse_line ie { st with in_quote_block := false, quote_indent := 0 }
              (pyRstrip l0)).1.getLast?.any
            (fun sg => sg.style.is_list_item)) = true)
    (h5 : listPrefixAny (pyStrip l2) = true) :
    (parseStep ie l0 (l2 :: rest2) st acc).2.2 =
      acc ++ (parse_line ie { st with in_quote_block := false, quote_indent := 0 }
                (pyRstrip l0)).1 := by
  cases hsg : (parse_line ie { st with in_quote_block := false, quote_indent := 0 }
      (pyRstrip l0)).1.getLast? with
  | none => rw [hsg] at h4; simp [Option.any] at h4
  | some sg =>
    rw [hsg] at h4
    simp only [Option.any] at h4
    simp [parseStep, h1, h2a, h2b, h3, hsg, h4, h5]

/-- C4 witness: the theorem applied to the adjacent pair `"- a"`, `"- b"`. -/
theorem c4_witness :
    ((parse_line ieF { ({} : PState) with in_quote_block := false, quote_indent := 0 }
        (pyRstrip (lit "- a"))).1.getLast?.any
      (fun sg => sg.style.is_list_item)) = true ∧
    listPrefixAny (pyStrip (lit "- b")) = true ∧
    (parseStep ieF (lit "- a") [lit "- b"] {} []).2.2 =
      [] ++ (parse_line ieF { ({} : PState) with in_quote_block := false, quote_indent := 0 }
               (pyRstrip (lit "- a"))).1 :=
  ⟨by decide, by decide,
   c4_adjacent_no_spacer ieF (lit "- a") (lit "- b") [] {} []
     (by decide) (by decide) (by decide) (by decide) (by decide) (by decide)⟩

/-- tokens invariant of the plain greedy fill: every produced line either
fits the width or is a single token of the allowed token list (the running
text only ever grows by a word when the widened line still fits). -/
theorem greedyPlain_mem (cw ch : Char → Nat) (style : TextStyle) (w : Nat)
    (toks : List Str) :
    ∀ (ws : List Str) (cur : Str) (lineH : Nat),
      (∀ x ∈ ws, x ∈ toks) →
      (cur = [] ∨ (measureText cw ch cur).1 ≤ w ∨ cur ∈ toks) →
      ∀ l ∈ greedyPlain cw ch style w cur lineH ws,
        (measureText cw ch l.text).1 ≤ w ∨ l.text ∈ toks := by
  intro ws
  induction ws with
  | nil =>
    intro cur lineH _ hcur l hl
    simp only [greedyPlain] at hl
    split at hl
    · rename_i hne
      simp only [List.mem_singleton] at hl
      subst hl
      rcases hcur with h | h | h
      · exact absurd h hne
      · exact Or.inl h
      · exact Or.inr h
    · simp at hl
  | cons word ws ih =>
    intro cur lineH hws hcur l hl
    simp only [greedyPlain] at hl
    split at hl
    · rename_i hfit
      exact ih (cur ++ word) _ (fun x hx => hws x (List.mem_cons_of_mem _ hx))
        (Or.inr (Or.inl hfit)) l hl
    · split at hl
      · rename_i hne
        rcases List.mem_cons.mp hl with rfl | hl2
        · rcases hcur with h | h | h
          · exact absurd h hne
          · exact Or.inl h
          · exact Or.inr h
        · exact ih word _ (fun x hx => hws x (List.mem_cons_of_mem _ hx))
            (Or.inr (Or.inr (hws word (List.mem_cons_self _ _)))) l hl2
      · exact ih word _ (fun x hx => hws x (List.mem_cons_of_mem _ hx))
          (Or.inr (Or.inr (hws word (List.mem_cons_self _ _)))) l hl

/-- tokens invariant of the code greedy fill, as for `greedyPlain_mem`. -/
theorem greedyCode_mem (cw ch : Char → Nat) (style : TextStyle) (w : Nat)
    (height : Nat) (toks : List Str) :
    ∀ (ws : List Str) (cur : Str),
      (∀ x ∈ ws, x ∈ toks) →
      (cur = [] ∨ (measureText cw ch cur).1 ≤ w ∨ cur ∈ toks) →
      ∀ l ∈ greedyCode cw ch style w height cur ws,
        (measureText cw ch l.text).1 ≤ w ∨ l.text ∈ toks := by
  intro ws
  induction ws with
  | nil =>
    intro cur _ hcur l hl
    simp only [greedyCode] at hl
    split at hl
    · rename_i hne
      simp only [List.mem_singleton] at hl
      subst hl
      rcases hcur with h | h | h
      · exact absurd h hne
      · exact Or.inl h
      · exact Or.inr h
    · simp at hl
  | cons word ws ih =>
    intro cur hws hcur l hl
    simp only [greedyCode] at hl
    split at hl
    · rename_i hfit
      exact ih (cur ++ word) (fun x hx => hws x (List.mem_cons_of_mem _ hx))
        (Or.inr (Or.inl hfit)) l hl
    · split at hl
      · rename_i hne
        rcases List.mem_cons.mp hl with rfl | hl2
        · rcases hcur with h | h | h
          · exact absurd h hne
          · exact Or.inl h
          · exact Or.inr h
        · exact ih word (fun x hx => hws x (List.mem_cons_of_mem _ hx))
            (Or.inr (Or.inr (hws word (List.mem_cons_self _ _)))) l hl2
      · exact ih word (fun x hx => hws x (List.mem_cons_of_mem _ hx))
          (Or.inr (Or.inr (hws word (List.mem_cons_self _ _)))) l hl

/-- C2 counterexample: at width 15 with every character 10 units wide, the
single indivisible token `"abcdef"` is emitted whole as a line of width 60 —
it is not force-split at character granularity, and the overage (45) exceeds
one character's width (10). -/
theorem c2_counterexample :
    (splitTextToLines cwTen chTen ieF { text := lit "abcdef", style := {} } 15).map
        (fun l => ((measureText cwTen chTen l.text).1, l.text)) =
      [(60, lit "abcdef")] ∧ 15 + cwTen 'f' < 60 := by
  decide

/-- C2 (amended): every line produced by `split_text_to_lines` for a
non-composite segment either fits the available width or is a single
indivisible token of the tokenizer (emitted whole, with unbounded overage;
there is no character-granularity fallback — `wrap_text` is never called). -/
theorem c2_wrap_token_bound (cw ch : Char → Nat) (ie : Char → Bool)
    (seg : TextSegment) (w : Nat) (hcomp : seg.originalSegments = []) :
    ∀ l ∈ splitTextToLines cw ch ie seg w,
      (measureText cw ch l.text).1 ≤ w ∨
        l.text ∈ plainWords ie seg.text ∨
        ∃ ln ∈ splitNl seg.text, l.text ∈ codeWords ie ln := by
  intro l hl
  rw [splitTextToLines] at hl
  split at hl
  · simp only [List.mem_singleton] at hl
    subst hl
    exact Or.inl (Nat.zero_le w)
  · split at hl
    · rename_i hq
      exact absurd hcomp hq
    · split at hl
      · simp only [List.mem_flatMap] at hl
        obtain ⟨ln, hln, hl2⟩ := hl
        by_cases hlnE : ln = []
        · rw [if_pos hlnE] at hl2
          simp only [List.mem_singleton] at hl2
          subst hl2
          exact Or.inl (Nat.zero_le w)
        · rw [if_neg hlnE] at hl2
          rcases greedyCode_mem cw ch seg.style w (measureText cw ch ln).2
              (codeWords ie ln) (codeWords ie ln) [] (fun x hx => hx)
              (Or.inl rfl) l hl2 with h | h
          · exact Or.inl h
          · exact Or.inr (Or.inr ⟨ln, hln, h⟩)
      · rcases greedyPlain_mem cw ch seg.style w (plainWords ie seg.text)
            (plainWords ie seg.text) [] 0 (fun x hx => hx)
            (Or.inl rfl) l hl with h | h
        · exact Or.inl h
        · exact Or.inr (Or.inl h)

/-- C2 witness: the theorem at the oversized-token segment of
`c2_counterexample`. -/
theorem c2_witness :
    ({ text := lit "abcdef", style := {} } : TextSegment).originalSegments = [] ∧
      ∀ l ∈ splitTextToLines cwTen chTen ieF { text := lit "abcdef", style := {} } 15,
        (measureText cwTen chTen l.text).1 ≤ 15 ∨
          l.text ∈ plainWords ieF (lit "abcdef") ∨
          ∃ ln ∈ splitNl (lit "abcdef"), l.text ∈ codeWords ieF ln :=
  ⟨rfl, c2_wrap_token_bound cwTen chTen ieF { text := lit "abcdef", style := {} } 15 rfl⟩

/-- a "plain" measured line: non-blank text, none of the style flags that
trigger special spacing or padding, and a single visual line.  (Every line
the pipeline produces has `line_count = 1`.) -/
def plainLine (l : ProcessedLine) : Bool :=
  decide (pyStrip l.text ≠ []) && !l.style.is_code && !l.style.is_quote &&
    !l.style.is_category && !l.style.is_title && decide (l.line_count = 1)

/-- total measured height of a line list (as summed by `calculate_height`). -/
def sumH : List ProcessedLine → Nat
| [] => 0
| l :: r => l.height * l.line_count + sumH r

/-- sum of `line_spacing` over every line but the last. -/
def sumSpInit : List ProcessedLine → Nat
| [] => 0
| [_] => 0
| l :: r => l.style.line_spacing + sumSpInit r

/-- closed form of the drawing pass on plain lines: each line advances the
cursor by its height, plus its own spacing when it is not the last line. -/
theorem drawAdvance_plain : ∀ ls : List ProcessedLine,
    (∀ x ∈ ls, plainLine x = true) →
    drawAdvance ls = sumH ls + sumSpInit ls := by
  intro ls
  induction ls with
  | nil => intro _; rfl
  | cons l r ih =>
    intro h
    have hl := h l (List.mem_cons_self _ _)
    simp only [plainLine, Bool.and_eq_true, Bool.not_eq_true', decide_eq_true_eq] at hl
    obtain ⟨⟨⟨⟨⟨hstrip, hcode⟩, hquote⟩, hcat⟩, htitle⟩, hlc⟩ := hl
    cases r with
    | nil =>
      simp only [drawAdvance, sumH, sumSpInit]
      rw [if_neg hstrip]
      simp [hlc]
    | cons l2 r2 =>
      have hthis := ih (fun x hx => h x (List.mem_cons_of_mem _ hx))
      simp only [drawAdvance, sumH, sumSpInit] at hthis ⊢
      rw [if_neg hstrip, hthis, hlc]
      simp
      omega

/-- closed form of the measurement pass on plain lines after a plain
predecessor: each line contributes its height, its own spacing when it is
neither the first of the tail nor the last, and the final line adds the
bottom padding 40. -/
theorem calcGo_plain : ∀ (ls : List ProcessedLine) (p : ProcessedLine),
    ls ≠ [] → (∀ x ∈ ls, plainLine x = true) →
    p.style.is_category = false → p.style.is_title = false →
    calcGo (some p) ls = sumH ls + sumSpInit ls + 40 := by
  intro ls
  induction ls with
  | nil => intro p h; exact absurd rfl h
  | cons l r ih =>
    intro p _ h hcat htitle
    have hl := h l (List.mem_cons_self _ _)
    simp only [plainLine, Bool.and_eq_true, Bool.not_eq_true', decide_eq_true_eq] at hl
    obtain ⟨⟨⟨⟨⟨hstrip, hcode⟩, hquote⟩, hcat2⟩, htitle2⟩, hlc⟩ := hl
    cases r with
    | nil =>
      simp only [calcGo, sumH, sumSpInit]
      rw [if_neg hstrip]
      simp [hcode, hquote]
    | cons l2 r2 =>
      have hr : ∀ x ∈ l2 :: r2, plainLine x = true :=
        fun x hx => h x (List.mem_cons_of_mem _ hx)
      have hih := ih l (by simp) hr hcat2 htitle2
      simp only [calcGo, sumH, sumSpInit] at hih ⊢
      rw [if_neg hstrip, hih]
      simp [hcat, htitle, hcode, hquote]
      omega

/-- C1 counterexample: already on the input `"hi"` (unit-width, height-10
metrics) the measurement pass and the drawing pass disagree: the measurement
adds the bottom padding 40 that the cursor never consumes, and the cursor
adds the first line's spacing that the measurement never counts (60 ≠ 35). -/
theorem c1_counterexample :
    calculateHeight (processedLinesOf cwOne chTen ieF false sigD (lit "hi")) ≠
      drawAdvance (processedLinesOf cwOne chTen ieF false sigD (lit "hi")) := by
  decide

/-- C1 (amended): on plain line lists (no code/quote/category/title flags,
non-blank single-count lines, at least two lines) the two passes differ by a
constant offset: measured height plus the first line's spacing equals the
drawn advance plus the bottom padding 40 — the passes make the same
per-line decisions up to that fixed discrepancy. -/
theorem c1_phase_height (l : ProcessedLine) (ls : List ProcessedLine)
    (hplain : ∀ x ∈ l :: ls, plainLine x = true) (hne : ls ≠ []) :
    calculateHeight (l :: ls) + l.style.line_spacing =
      drawAdvance (l :: ls) + 40 := by
  cases ls with
  | nil => exact absurd rfl hne
  | cons l2 r2 =>
    have hl := hplain l (List.mem_cons_self _ _)
    simp only [plainLine, Bool.and_eq_true, Bool.not_eq_true', decide_eq_true_eq] at hl
    obtain ⟨⟨⟨⟨⟨hstrip, hcode⟩, hquote⟩, hcat⟩, htitle⟩, hlc⟩ := hl
    have hr : ∀ x ∈ l2 :: r2, plainLine x = true :=
      fun x hx => hplain x (List.mem_cons_of_mem _ hx)
    have hcalc := calcGo_plain (l2 :: r2) l (by simp) hr hcat htitle
    have hdraw := drawAdvance_plain (l :: l2 :: r2) hplain
    rw [hdraw]
    simp only [calculateHeight, calcGo, sumH, sumSpInit] at hcalc ⊢
    rw [if_neg hstrip, hcalc]
    simp [hstrip, hcode, hquote, hlc]
    omega

/-- concrete plain lines for the C1 witness. -/
def hiLine : ProcessedLine := { text := lit "hi", style := {}, height := 10 }

/-- concrete plain signature line for the C1 witness. -/
def sgLine : ProcessedLine :=
  { text := sigD, style := { alignment := lit "right" }, height := 10 }

/-- C1 witness: the offset identity at the two-line list `[hiLine, sgLine]`
(60 + 15 = 35 + 40). -/
theorem c1_witness :
    (∀ x ∈ [hiLine, sgLine], plainLine x = true) ∧
      ([sgLine] : List ProcessedLine) ≠ [] ∧
      calculateHeight [hiLine, sgLine] + hiLine.style.line_spacing =
        drawAdvance [hiLine, sgLine] + 40 :=
  ⟨by decide, by decide, c1_phase_height hiLine [sgLine] (by decide) (by decide)⟩

/-- C7 counterexample: inline markers survive processing — the overlapping
bold/italic input `"x **a* b*"` comes out as `"x *a b*"` (a re-formed
italic pair left in the text), and on a backquoted code span wrapped in a
star title (the line `** `x` **`) the title-pattern branch of `parse_line`
returns the group verbatim: the segment text keeps both backquotes. -/
theorem c7_counterexample :
    (processInline (lit "x **a* b*")).1 = lit "x *a b*" ∧
      (parse_line ieF {} (lit "** `x` **")).1.map (fun sg => sg.text) =
        [lit "`x`"] := by
  decide

/-- C7 (amended): on the substitution path of `process_inline_formats`
(neither the header pattern nor the list-star pattern matched), the
processed text admits no strikethrough match and retains at most one
backquote — the pair markers `~~…~~` and balanced `` `…` `` spans are
consumed, with bold/italic recorded in the returned flags.  (Without those
hypotheses the claim is false: the header and list-star branches return
their group verbatim, markers included — `c7_counterexample`.) -/
theorem c7_marker_residue (s : Str)
    (h1 : hdrInline s = none) (h2 : listStarM s = none) :
    pairMatches '~' (processInline s).1 = false ∧
      cnt bq (processInline s).1 ≤ 1 := by
  obtain ⟨Y, hY⟩ : ∃ Y, (processInline s).1 = pairSubAll '~' (codeSub Y) :=
    ⟨_, by simp only [processInline, h1, h2]; rfl⟩
  rw [hY]
  exact ⟨pairSubAll_noMatch '~' (codeSub Y),
         by rw [pairSubAll_cnt (by decide)]; exact codeSub_cnt Y⟩

/-- C7 witness: the residue bounds at the line `a ~~b~~ `c` `d``. -/
theorem c7_witness :
    hdrInline (lit "a ~~b~~ `c` `d`") = none ∧
      listStarM (lit "a ~~b~~ `c` `d`") = none ∧
      (pairMatches '~' (processInline (lit "a ~~b~~ `c` `d`")).1 = false ∧
        cnt bq (processInline (lit "a ~~b~~ `c` `d`")).1 ≤ 1) :=
  ⟨by decide, by decide,
   c7_marker_residue (lit "a ~~b~~ `c` `d`") (by decide) (by decide)⟩

/-- a line list containing no fence line scans to the end: no closer, empty
remainder. -/
theorem fenceSplit_none : ∀ ls : List Str,
    (∀ l ∈ ls, sw l (lit "```") = false) →
    fenceSplit ls = (ls, false, []) := by
  intro ls
  induction ls with
  | nil => intro _; rfl
  | cons l t ih =>
    intro h
    rw [fenceSplit, if_neg (by simp [h l (List.mem_cons_self _ _)])]
    rw [ih (fun x hx => h x (List.mem_cons_of_mem _ hx))]

/-- scanning stops at the first fence line: interior collected, closer
consumed, the rest untouched. -/
theorem fenceSplit_close (c : Str) (rest : List Str)
    (hc : sw c (lit "```") = true) :
    ∀ interior : List Str, (∀ l ∈ interior, sw l (lit "```") = false) →
    fenceSplit (interior ++ c :: rest) = (interior, true, rest) := by
  intro interior
  induction interior with
  | nil => intro _; simp [fenceSplit, hc]
  | cons l t ih =>
    intro h
    simp only [List.cons_append, fenceSplit, List.append_eq]
    rw [if_neg (by simp [h l (List.mem_cons_self _ _)]),
        ih (fun x hx => h x (List.mem_cons_of_mem _ hx))]

/-- C6: a fence-opening line outside a code block emits exactly one
code-kind segment.  With a closing fence, its text is the interior lines
joined by newlines with `<`/`>` HTML-escaped, the closer is consumed, and
the code-block flag ends false; with no closing fence, all remaining lines
are captured the same way and the flag stays true. -/
theorem c6_code_fence (ie : Char → Bool) (l0 : Str) (st : PState)
    (acc : List TextSegment)
    (hopen : sw (pyRstrip l0) (lit "```") = true)
    (hst : st.in_code_block = false) :
    (∀ (interior : List Str) (c : Str) (rest : List Str),
        (∀ l ∈ interior, sw l (lit "```") = false) →
        sw c (lit "```") = true →
        parseStep ie l0 (interior ++ c :: rest) st acc =
          (rest, { st with in_code_block := false },
           acc ++ [{ text := escapeHtml (joinNl interior),
                     style := { font_name := lit "regular", indent := 40,
                                line_spacing := 10, is_code := true },
                     original_text :=
                       lit "```" ++ pyStrip ((pyRstrip l0).drop 3) ++ ['\n'] ++
                         escapeHtml (joinNl interior) ++ ['\n'] ++
                         lit "```" }])) ∧
    (∀ ls : List Str, (∀ l ∈ ls, sw l (lit "```") = false) →
        parseStep ie l0 ls st acc =
          ([], { st with in_code_block := true },
           acc ++ [{ text := escapeHtml (joinNl ls),
                     style := { font_name := lit "regular", indent := 40,
                                line_spacing := 10, is_code := true },
                     original_text :=
                       lit "```" ++ pyStrip ((pyRstrip l0).drop 3) ++ ['\n'] ++
                         escapeHtml (joinNl ls) }])) := by
  constructor
  · intro interior c rest hint hc
    have hfs := fenceSplit_close c rest hc interior hint
    simp [parseStep, hopen, hst, hfs]
  · intro ls hnone
    have hfs := fenceSplit_none ls hnone
    simp [parseStep, hopen, hst, hfs]

/-- C6 witness: the fence `"```py"`, one interior line `"a<b"`, a closer and
one following line. -/
theorem c6_witness :
    sw (pyRstrip (lit "```py")) (lit "```") = true ∧
      (∀ l ∈ [lit "a<b"], sw l (lit "```") = false) ∧
      parseStep ieF (lit "```py") ([lit "a<b"] ++ lit "```" :: [lit "rest"]) {} [] =
        ([lit "rest"], { ({} : PState) with in_code_block := false },
         [] ++ [{ text := escapeHtml (joinNl [lit "a<b"]),
                  style := { font_name := lit "regular", indent := 40,
                             line_spacing := 10, is_code := true },
                  original_text :=
                    lit "```" ++ pyStrip ((pyRstrip (lit "```py")).drop 3) ++
                      ['\n'] ++ escapeHtml (joinNl [lit "a<b"]) ++ ['\n'] ++
                      lit "```" }]) :=
  ⟨by decide, by decide,
   (c6_code_fence ieF (lit "```py") {} [] (by decide) rfl).1
     [lit "a<b"] (lit "```") [lit "rest"] (by decide) (by decide)⟩

/-- a string without the marker character splits nowhere. -/
theorem splitOnChar_none_of {c : Char} : ∀ {s : Str},
    (∀ x ∈ s, x ≠ c) → splitOnChar c s = none := by
  intro s
  induction s with
  | nil => intro _; rfl
  | cons a t ih =>
    intro h
    rw [splitOnChar, if_neg (h a (List.mem_cons_self _ _)),
        ih (fun x hx => h x (List.mem_cons_of_mem _ hx))]
    rfl

/-- a string without the marker character has no marker pair. -/
theorem splitOnPair_none_of {c : Char} : ∀ {s : Str},
    (∀ x ∈ s, x ≠ c) → splitOnPair c s = none := by
  intro s
  induction s with
  | nil => intro _; rfl
  | cons a t ih =>
    intro h
    cases t with
    | nil => rfl
    | cons b t2 =>
      rw [splitOnPair, if_neg (fun hc => (h a (List.mem_cons_self _ _)) hc.1),
          ih (fun x hx => h x (List.mem_cons_of_mem _ hx))]
      rfl

theorem pairMatches_none_of {c : Char} {s : Str}
    (h : ∀ x ∈ s, x ≠ c) : pairMatches c s = false := by
  rw [pairMatches, splitOnPair_none_of h]

theorem pairSubAll_id {c : Char} {s : Str}
    (h : ∀ x ∈ s, x ≠ c) : pairSubAll c s = s := by
  rw [pairSubAll]
  cases hf : s.length with
  | zero => rfl
  | succ k => rw [pairSubAllF, splitOnPair_none_of h]

theorem codeSub_id {s : Str} (h : ∀ x ∈ s, x ≠ bq) : codeSub s = s := by
  rw [codeSub]
  cases hf : s.length with
  | zero => rfl
  | succ k => rw [codeSubF, splitOnChar_none_of h]

theorem italicMatchesB_none_of : ∀ {s : Str},
    (∀ x ∈ s, x ≠ '*' ∧ x ≠ '_') → italicMatchesB s = false := by
  intro s
  induction s with
  | nil => intro _; rfl
  | cons a t ih =>
    intro h
    rw [italicMatchesB.eq_def]
    simp [(h a (List.mem_cons_self _ _)).1, (h a (List.mem_cons_self _ _)).2,
          ih (fun x hx => h x (List.mem_cons_of_mem _ hx))]

theorem linkSubF_id : ∀ (fuel : Nat) (s : Str),
    (∀ x ∈ s, x ≠ '[') → linkSubF fuel s = s := by
  intro fuel
  induction fuel with
  | zero => intro s _; cases s <;> rfl
  | succ k ih =>
    intro s h
    cases s with
    | nil => rfl
    | cons a t =>
      rw [linkSubF, if_neg (h a (List.mem_cons_self _ _)),
          ih t (fun x hx => h x (List.mem_cons_of_mem _ hx))]

theorem linkSub_id {s : Str} (h : ∀ x ∈ s, x ≠ '[') : linkSub s = s :=
  linkSubF_id s.length s h

/-- a string without a `<` (case-insensitively) has no color-span match. -/
theorem spanFind_none_of : ∀ {s : Str},
    (∀ x ∈ s, ciEq x '<' = false) → spanFind s = none := by
  intro s
  induction s with
  | nil => intro _; rfl
  | cons a t ih =>
    intro h
    have hat : spanAt (a :: t) = none := by
      rw [spanAt]
      have : swCI (a :: t) (lit "<span") = none := by
        show swCI (a :: t) ('<' :: lit "span") = none
        rw [swCI, if_neg]
        simp [h a (List.mem_cons_self _ _)]
      rw [this]
    rw [spanFind, hat, ih (fun x hx => h x (List.mem_cons_of_mem _ hx))]
    rfl

/-- on the substitution path, a string containing none of the inline marker
characters passes through `process_inline_formats` unchanged, with both
style flags false. -/
theorem processInline_inert {s : Str}
    (h : ∀ x ∈ s, x ≠ '*' ∧ x ≠ '_' ∧ x ≠ '[' ∧ x ≠ bq ∧ x ≠ '~')
    (hhd : hdrInline s = none) (hls : listStarM s = none) :
    processInline s = (s, false, false) := by
  have h1 : pairMatches '*' s = false :=
    pairMatches_none_of (fun x hx => (h x hx).1)
  have h2 : italicMatchesB s = false :=
    italicMatchesB_none_of (fun x hx => ⟨(h x hx).1, (h x hx).2.1⟩)
  have h3 : linkSub s = s := linkSub_id (fun x hx => (h x hx).2.2.1)
  have h4 : codeSub s = s := codeSub_id (fun x hx => (h x hx).2.2.2.1)
  have h5 : pairSubAll '~' s = s := pairSubAll_id (fun x hx => (h x hx).2.2.2.2)
  simp [processInline, hhd, hls, h1, h2, h3, h4, h5]

theorem takeWhile_replicate_pos {p : Char → Bool} {a : Char} (h : p a = true) :
    ∀ n, (List.replicate n a).takeWhile p = List.replicate n a := by
  intro n
  induction n with
  | zero => rfl
  | succ m ih => simp [List.replicate_succ, List.takeWhile_cons, h, ih]

theorem takeWhile_replicate_neg {p : Char → Bool} {a : Char} (h : p a = false) :
    ∀ n, (List.replicate n a).takeWhile p = [] := by
  intro n
  cases n with
  | zero => rfl
  | succ m => simp [List.replicate_succ, List.takeWhile_cons, h]

theorem dropWhile_replicate_neg {p : Char → Bool} {a : Char} (h : p a = false) :
    ∀ n, (List.replicate n a).dropWhile p = List.replicate n a := by
  intro n
  cases n with
  | zero => rfl
  | succ m => simp [List.replicate_succ, List.dropWhile_cons, h]

theorem all_replicate_pos {p : Char → Bool} {a : Char} (h : p a = true) :
    ∀ n, (List.replicate n a).all p = true := by
  intro n
  induction n with
  | zero => rfl
  | succ m ih => simp [List.replicate_succ, h, ih]

/-- the tail `\s*\*+$` accepts a nonempty all-star run. -/
theorem remValid_star (i : Nat) : remValid (List.replicate (i + 1) '*') = true := by
  have hdw : (List.replicate (i + 1) '*').dropWhile (fun c => pyIsSpace c) =
      List.replicate (i + 1) '*' :=
    dropWhile_replicate_neg (show pyIsSpace '*' = false from rfl) _
  have hall : (List.replicate (i + 1) '*').all (fun c => decide (c = '*')) = true :=
    all_replicate_pos (p := fun c => decide (c = '*')) (by decide) _
  have hne2 : (List.replicate (i + 1) '*') ≠ [] := by simp [List.replicate_succ]
  simp [remValid, hdw, hall, hne2]

theorem midScan_nil : midScan ([] : Str) = none := by decide

theorem midScan_star_one : midScan ['*'] = none := by decide

/-- the lazy group of the title pattern on an all-star run of length ≥ 2
captures exactly one star. -/
theorem midScan_star (j : Nat) :
    midScan (List.replicate (j + 2) '*') = some ['*'] := by
  have h1 : (List.replicate (j + 2) '*').drop 1 = List.replicate (j + 1) '*' := by
    rw [List.drop_replicate, show j + 2 - 1 = j + 1 from by omega]
  have h3 : (List.replicate (j + 2) '*').take 1 = ['*'] := by
    rw [List.take_replicate, show (1 : Nat) ⊓ (j + 2) = 1 from by omega]
    rfl
  simp [midScan, List.range_succ_eq_map, List.findSome?_cons, h1, h3,
        remValid_star j]

theorem hdrTryK_star {n k : Nat} (h : k + 2 ≤ n) :
    hdrTryK (List.replicate n '*') k = some ['*'] := by
  obtain ⟨j, rfl⟩ : ∃ j, n = j + (k + 2) := ⟨n - (k + 2), by omega⟩
  have hdrop : (List.replicate (j + (k + 2)) '*').drop k =
      List.replicate (j + 2) '*' := by
    rw [List.drop_replicate, show j + (k + 2) - k = j + 2 by omega]
  have htw : (List.replicate (j + 2) '*').takeWhile (fun c => pyIsSpace c) = [] :=
    takeWhile_replicate_neg (show pyIsSpace '*' = false from rfl) _
  simp [hdrTryK, hdrop, htw, hdrWloop, midScan_star j]

theorem hdrTryK_star_none {n k : Nat} (h : n ≤ k + 1) :
    hdrTryK (List.replicate n '*') k = none := by
  have hdrop : (List.replicate n '*').drop k = List.replicate (n - k) '*' := by
    rw [List.drop_replicate]
  rcases Nat.le_one_iff_eq_zero_or_eq_one.mp (show n - k ≤ 1 by omega) with h0 | h1
  · simp [hdrTryK, hdrop, h0, hdrWloop, midScan_nil]
  · simp [hdrTryK, hdrop, h1, hdrWloop, midScan_star_one]

theorem hdrGo_star {n : Nat} (hn : 3 ≤ n) :
    ∀ k, 1 ≤ k → k ≤ n → hdrGo (List.replicate n '*') k = some ['*'] := by
  intro k
  induction k with
  | zero => intro h _; exact absurd h (by omega)
  | succ k2 ih =>
    intro _ hk2n
    rw [hdrGo]
    by_cases hcase : k2 + 3 ≤ n
    · rw [hdrTryK_star (show (k2 + 1) + 2 ≤ n by omega)]
    · rw [hdrTryK_star_none (n := n) (k := k2 + 1) (by omega)]
      exact ih (by omega) (by omega)

/-- the emphasized-title pattern `^\*+\s*(.+?)\s*\*+$` on a run of `n ≥ 3`
stars matches with group 1 equal to a single star. -/
theorem hdr1164_star {n : Nat} (hn : 3 ≤ n) :
    hdr1164 (List.replicate n '*') = some ['*'] := by
  rw [hdr1164,
      takeWhile_replicate_pos (show decide ('*' = '*') = true from rfl),
      List.length_replicate]
  exact hdrGo_star hn n (by omega) le_rfl

/-- `dropWhile` is the identity when no element satisfies the predicate. -/
theorem dropWhile_no_of {p : Char → Bool} : ∀ {s : Str},
    (∀ c ∈ s, p c = false) → s.dropWhile p = s := by
  intro s
  cases s with
  | nil => intro _; rfl
  | cons a t =>
    intro h
    rw [List.dropWhile_cons, h a (List.mem_cons_self _ _)]
    simp

/-- `rstrip` of a string without whitespace. -/
theorem pyRstrip_no_ws (s : Str) (h : ∀ c ∈ s, pyIsSpace c = false) :
    pyRstrip s = s := by
  rw [pyRstrip, dropWhile_no_of (fun c hc => h c (List.mem_reverse.mp hc)),
      List.reverse_reverse]

/-- `strip` of a string without whitespace. -/
theorem pyStrip_no_ws (s : Str) (h : ∀ c ∈ s, pyIsSpace c = false) :
    pyStrip s = s := by
  rw [pyStrip, pyRstrip_no_ws s h, pyLstrip, dropWhile_no_of h]

/-- C8 (amended): the parser has no horizontal-rule segment kind.  Outside a
code block, a line of `n ≥ 3` dashes falls through every branch and is
emitted as a single literal body-text segment (its own text, regular font,
indent 40, not a title and not a list item); a line of `n ≥ 3` stars matches
the emphasized-title pattern with group `"*"` and is emitted as one bold
size-35 title segment whose text is `"*"`.  Neither is drawn as a stroke. -/
theorem c8_rule_lines (ie : Char → Bool) (st : PState) (n : Nat) (hn : 3 ≤ n)
    (hst : st.in_code_block = false) (hie : ie '-' = false) :
    (parse_line ie st (List.replicate n '-')).1 =
      [{ text := List.replicate n '-',
         style := { font_name := lit "regular", indent := 40,
                    line_spacing := 15 } }] ∧
    (parse_line ie st (List.replicate n '*')).1 =
      [{ text := ['*'],
         style := { font_name := lit "bold", font_size := 35, is_title := true,
                    line_spacing := 20, indent := 0, is_bold := true } }] := by
  obtain ⟨m, rfl⟩ : ∃ m, n = m + 3 := ⟨n - 3, by omega⟩
  constructor
  · rw [show List.replicate (m + 3) '-' = '-' :: List.replicate (m + 2) '-'
        from List.replicate_succ '-' (m + 2)]
    have hmem : ∀ x ∈ '-' :: List.replicate (m + 2) '-', x = '-' := by
      intro x hx
      rcases List.mem_cons.mp hx with rfl | hx2
      · rfl
      · exact List.eq_of_mem_replicate hx2
    have hstr : pyStrip ('-' :: List.replicate (m + 2) '-') =
        '-' :: List.replicate (m + 2) '-' :=
      pyStrip_no_ws _ (fun c hc => by rw [hmem c hc]; rfl)
    have hnum : numListM ('-' :: List.replicate (m + 2) '-') = none := rfl
    have hsw1 : sw ('-' :: List.replicate (m + 2) '-') (lit "# ") = false := rfl
    have hsw2 : sw ('-' :: List.replicate (m + 2) '-') (lit "## ") = false := rfl
    have hsw3 : sw ('-' :: List.replicate (m + 2) '-') (lit "### ") = false := rfl
    have hlst : listM ('-' :: List.replicate (m + 2) '-') = none := rfl
    have hcol : colorSearchB ('-' :: List.replicate (m + 2) '-') = false := by
      rw [colorSearchB, spanFind_none_of (fun x hx => by rw [hmem x hx]; rfl)]
      rfl
    have hhdr : hdr1164 ('-' :: List.replicate (m + 2) '-') = none := rfl
    have hcat : isCategoryTitle ('-' :: List.replicate (m + 2) '-') = false := by
      rw [isCategoryTitle, hstr]
      rfl
    have hsplit : splitNumM ('-' :: List.replicate (m + 2) '-') = none := rfl
    have hswd : sw ('-' :: List.replicate (m + 2) '-') (lit "-") = true := rfl
    have hpi : processInline ('-' :: List.replicate (m + 2) '-') =
        ('-' :: List.replicate (m + 2) '-', false, false) :=
      processInline_inert
        (fun x hx => by
          rw [hmem x hx]
          exact ⟨by decide, by decide, by decide, by decide, by decide⟩)
        rfl rfl
    simp [parse_line, hstr, hst, hnum, hsw1, hsw2, hsw3, hlst, hcol, hhdr,
          hcat, hsplit, hswd, hpi, hie]
  · rw [show List.replicate (m + 3) '*' = '*' :: List.replicate (m + 2) '*'
        from List.replicate_succ '*' (m + 2)]
    have hmem : ∀ x ∈ '*' :: List.replicate (m + 2) '*', x = '*' := by
      intro x hx
      rcases List.mem_cons.mp hx with rfl | hx2
      · rfl
      · exact List.eq_of_mem_replicate hx2
    have hstr : pyStrip ('*' :: List.replicate (m + 2) '*') =
        '*' :: List.replicate (m + 2) '*' :=
      pyStrip_no_ws _ (fun c hc => by rw [hmem c hc]; rfl)
    have hnum : numListM ('*' :: List.replicate (m + 2) '*') = none := rfl
    have hsw1 : sw ('*' :: List.replicate (m + 2) '*') (lit "# ") = false := rfl
    have hsw2 : sw ('*' :: List.replicate (m + 2) '*') (lit "## ") = false := rfl
    have hsw3 : sw ('*' :: List.replicate (m + 2) '*') (lit "### ") = false := rfl
    have hlst : listM ('*' :: List.replicate (m + 2) '*') = none := rfl
    have hcol : colorSearchB ('*' :: List.replicate (m + 2) '*') = false := by
      rw [colorSearchB, spanFind_none_of (fun x hx => by rw [hmem x hx]; rfl)]
      rfl
    have hhdr : hdr1164 ('*' :: List.replicate (m + 2) '*') = some ['*'] := by
      rw [← List.replicate_succ]
      exact hdr1164_star (by omega)
    have hzh : zhOrdinal ['*'] = false := rfl
    simp [parse_line, hstr, hst, hnum, hsw1, hsw2, hsw3, hlst, hcol, hhdr, hzh]

/-- C8 counterexample: `"---"` parses to a literal indented text segment that
keeps the dashes, and `"***"` parses to a title segment with text `"*"` —
neither yields a horizontal-rule (there is no such segment kind), a
plain-title of the raw line, nor a list item. -/
theorem c8_counterexample :
    (parse_line ieF {} (lit "---")).1.map
        (fun sg => (sg.text, sg.style.indent, sg.style.is_title,
                    sg.style.is_list_item)) = [(lit "---", 40, false, false)] ∧
      (parse_line ieF {} (lit "***")).1.map
          (fun sg => (sg.text, sg.style.font_size, sg.style.is_title)) =
        [(['*'], 35, true)] := by
  decide

/-- C8 witness: the amended theorem at `n = 3` with the trivial emoji
classifier. -/
theorem c8_witness :
    ({} : PState).in_code_block = false ∧ ieF '-' = false ∧
      ((parse_line ieF {} (List.replicate 3 '-')).1 =
        [{ text := List.replicate 3 '-',
           style := { font_name := lit "regular", indent := 40,
                      line_spacing := 15 } }] ∧
       (parse_line ieF {} (List.replicate 3 '*')).1 =
        [{ text := ['*'],
           style := { font_name := lit "bold", font_size := 35, is_title := true,
                      line_spacing := 20, indent := 0, is_bold := true } }]) :=
  ⟨rfl, rfl, c8_rule_lines ieF {} 3 (by decide) rfl rfl⟩

end IG
